import Mathlib

/-!
# Verification of the librustzcash light-client scanning core

Shallow embedding, in Lean 4, of the block-scanning, chain-validation and
rewind core of the `librustzcash` repository:

* `zcash_client_backend/src/welding_rig.rs` — `scan_output`, `scan_block`;
* `zcash_client_sqlite/src/chain.rs` — `validate_combined_chain`,
  `rewind_to_height`;
* `zcash_client_sqlite/src/lib.rs` — `scan_cached_blocks` and its per-block
  persistence loop;
* `zcash_primitives/src/sapling.rs` and `zcash_primitives/src/pedersen_hash.rs`
  — `merkle_hash`, `Personalization`, `pedersen_hash`.

Machine integers of the source (`u8`, `u64`, `usize`, `i32`) are embedded as
`Nat` / `Int`; the heights handled by the code sit far from the `i32`
boundaries, and byte values are naturals below 256.  Fallible operations
return `Option` / `Except`.  External cryptographic primitives that the
sources consume opaquely (trial decryption, point decoding, nullifier
derivation) are passed in as explicit function parameters, mirroring the
spec's treatment of them as opaque collaborators.
-/

set_option maxRecDepth 100000

/-! ## Commitment accumulator and incremental witness

`zcash_primitives/src/merkle_tree.rs` (`CommitmentTree`, `IncrementalWitness`,
`Hashable`) is declared in `zcash_primitives/src/lib.rs` but its code is not
under `src/`; the structures below are modelled from the spec.
-/

/-- Modelled from the spec: the per-depth "empty subtree" constants of
`merkle_tree.rs` / `sapling.rs` (`EMPTY_ROOTS`): depth 0 is the well-known
empty-leaf constant, and depth `d+1` combines two empty subtrees of depth
`d` (spec §3, §4.1; the construction matches the `EMPTY_ROOTS` loop that is
visible in `sapling.rs`). -/
def emptyAt {A : Type} (comb : Nat → A → A → A) (blank : A) : Nat → A
  | 0 => blank
  | d + 1 => comb d (emptyAt comb blank d) (emptyAt comb blank d)

/-- Modelled from the spec: one bottom-up level of the fixed-depth padded
tree — consecutive nodes at depth `d` are combined pairwise, an unmatched
last node being paired with the empty subtree of depth `d` (spec §3:
"unfilled leaves are a well-known empty leaf constant and unfilled internal
nodes use a well-known per-depth empty subtree constant"). -/
def buildLevel {A : Type} (comb : Nat → A → A → A) (blank : A) (d : Nat) :
    List A → List A
  | [] => []
  | [x] => [comb d x (emptyAt comb blank d)]
  | x :: y :: rest => comb d x y :: buildLevel comb blank d rest

/-- Modelled from the spec: the root obtained by applying `buildLevel` from
depth `d` for `k` further levels and reading the top node (empty trees give
the empty-subtree constant). -/
def rootUp {A : Type} (comb : Nat → A → A → A) (blank : A) :
    Nat → Nat → List A → A
  | d, 0, l => l.getD 0 (emptyAt comb blank d)
  | d, k + 1, l => rootUp comb blank (d + 1) k (buildLevel comb blank d l)

/-- Modelled from the spec: the append-only commitment accumulator
(`CommitmentTree` of the absent `merkle_tree.rs`), represented extensionally
by its append-ordered leaf sequence; spec §3 fixes `root()` after appending
`c₁..cₙ` to be the deterministic combine function applied bottom-up over a
tree of fixed depth `D` padded with the empty constants, which is exactly
`rootUp` below. -/
structure CommitmentTree (A : Type) where
  leaves : List A
deriving DecidableEq

/-- Source `CommitmentTree::new()`: the empty accumulator. -/
def CommitmentTree.new (A : Type) : CommitmentTree A := ⟨[]⟩

/-- Source `CommitmentTree::append`: adds one commitment at the next position
(capacity handling is a configuration error per spec §4.1 and is not
modelled). -/
def CommitmentTree.append {A : Type} (t : CommitmentTree A) (n : A) :
    CommitmentTree A := ⟨t.leaves ++ [n]⟩

/-- Source `CommitmentTree::size`: number of appended leaves. -/
def CommitmentTree.size {A : Type} (t : CommitmentTree A) : Nat :=
  t.leaves.length

/-- Source `CommitmentTree::root` at fixed depth `D` (spec §3 invariant). -/
def CommitmentTree.root {A : Type} (comb : Nat → A → A → A) (blank : A)
    (D : Nat) (t : CommitmentTree A) : A :=
  rootUp comb blank 0 D t.leaves

/-- Modelled from the spec: the per-note incremental witness
(`IncrementalWitness` of the absent `merkle_tree.rs`): it is anchored to one
leaf position and "is advanced by the same ordered leaf stream the
Accumulator consumes" (spec §9, §4.2); we model its state by the anchored
position together with the leaf stream it has consumed, from which the
authentication path and the recomputed root are defined. -/
structure IncrementalWitness (A : Type) where
  pos : Nat
  leaves : List A
deriving DecidableEq

/-- Source `IncrementalWitness::from_tree`: begins tracking the most recently
appended leaf of the given accumulator state (spec §4.2 `new(position,
accumulator_snapshot)`; `welding_rig.rs` always creates the witness from the
tree just after appending the note's commitment). -/
def IncrementalWitness.from_tree {A : Type} (t : CommitmentTree A) :
    IncrementalWitness A :=
  ⟨t.leaves.length - 1, t.leaves⟩

/-- Source `IncrementalWitness::append`: consumes one more appended leaf (spec §4.2:
must be invoked for every leaf appended to the accumulator after creation,
in the same order). -/
def IncrementalWitness.append {A : Type} (w : IncrementalWitness A) (n : A) :
    IncrementalWitness A :=
  ⟨w.pos, w.leaves ++ [n]⟩

/-- Source `IncrementalWitness::position`: the anchored leaf position. -/
def IncrementalWitness.position {A : Type} (w : IncrementalWitness A) : Nat :=
  w.pos

/-- Modelled from the spec: the sibling hashes of the anchored position, one
per depth, read off the padded tree levels (spec §4.2 `path()`: "the ordered
list of D sibling hashes").  At depth `d` the sibling of node index `p` is
index `p ^ 1`; absent nodes are the per-depth empty subtree constant. -/
def sibList {A : Type} (comb : Nat → A → A → A) (blank : A) :
    Nat → Nat → Nat → List A → List A
  | _, 0, _, _ => []
  | d, k + 1, p, l =>
      l.getD (if p % 2 = 0 then p + 1 else p - 1) (emptyAt comb blank d) ::
        sibList comb blank (d + 1) k (p / 2) (buildLevel comb blank d l)

/-- Source `IncrementalWitness::path` at fixed depth `D`. -/
def IncrementalWitness.path {A : Type} (comb : Nat → A → A → A) (blank : A)
    (D : Nat) (w : IncrementalWitness A) : List A :=
  sibList comb blank 0 D w.pos w.leaves

/-- Folding a leaf up an authentication path: at each depth the current node
is combined with the next sibling on the side determined by the position's
bit (spec §4.2 `root()`: "recomputes the root from the authentication
path"). -/
def foldPath {A : Type} (comb : Nat → A → A → A) :
    Nat → Nat → A → List A → A
  | _, _, cur, [] => cur
  | d, p, cur, s :: rest =>
      foldPath comb (d + 1) (p / 2)
        (if p % 2 = 0 then comb d cur s else comb d s cur) rest

/-- Source `IncrementalWitness::root` at fixed depth `D`: recomputed from the
anchored leaf and its authentication path. -/
def IncrementalWitness.root {A : Type} (comb : Nat → A → A → A) (blank : A)
    (D : Nat) (w : IncrementalWitness A) : A :=
  foldPath comb 0 w.pos (w.leaves.getD w.pos (emptyAt comb blank 0))
    (w.path comb blank D)

/-- Appending a stream of leaves to the accumulator, in order. -/
def CommitmentTree.appendList {A : Type} (t : CommitmentTree A)
    (ns : List A) : CommitmentTree A :=
  ns.foldl CommitmentTree.append t

/-- Appending the same stream of leaves to a witness, in order. -/
def IncrementalWitness.appendList {A : Type} (w : IncrementalWitness A)
    (ns : List A) : IncrementalWitness A :=
  ns.foldl IncrementalWitness.append w

/-! ## Compact block data (`zcash_client_backend/src/proto/compact_formats.rs`)

Byte strings are lists of naturals (each below 256 on real inputs). -/

/-- A byte string. -/
abbrev Bytes := List Nat

/-- Source `CompactSpend`: exposes the spend's nullifier. -/
structure CompactSpend where
  nf : Bytes
deriving DecidableEq

/-- Source `CompactOutput`: commitment, ephemeral key and ciphertext fragment. -/
structure CompactOutput where
  cmu : Bytes
  epk : Bytes
  ciphertext : Bytes
deriving DecidableEq

/-- Source `CompactTx`: hash, in-block index, spends and outputs. -/
structure CompactTx where
  hash : Bytes
  index : Nat
  spends : List CompactSpend
  outputs : List CompactOutput
deriving DecidableEq

/-- Source `CompactBlock`: height, hash, previous hash, time and transactions. -/
structure CompactBlock where
  height : Int
  hash : Bytes
  prev_hash : Bytes
  time : Nat
  vtx : List CompactTx
deriving DecidableEq

/-! ## The block scanner (`zcash_client_backend/src/welding_rig.rs`) -/

/-- The BLS12-381 scalar-field modulus `r`: `Fr` elements are naturals below
`rBLS` (the `pairing::bls12_381::Fr` type consumed by `welding_rig.rs`). -/
def rBLS : Nat :=
  52435875175126190479447740508185965837690552500527637822603658699938581184513

/-- Source `FrRepr::read_le` on a byte slice: reads exactly 32 little-endian bytes,
failing (`io::Error`) if fewer are available; surplus bytes are ignored. -/
def read_le_32 (b : Bytes) : Option Nat :=
  if b.length < 32 then none
  else some ((b.take 32).foldr (fun byte acc => byte + 256 * acc) 0)

/-- Source `Fr::from_repr`: succeeds exactly on canonical representations, i.e.
values below the modulus. -/
def fr_from_repr (n : Nat) : Option Nat :=
  if n < rBLS then some n else none

/-- The external cryptographic collaborators consumed opaquely by
`welding_rig.rs` and `zcash_client_sqlite/src/lib.rs` (spec §6): Jubjub point
decoding (`edwards::Point::read` followed by `as_prime_order`), compact
trial decryption (`try_sapling_compact_note_decryption`), incoming-viewing-key
derivation from an extended full viewing key (`extfvk.fvk.vk.ivk()`), and
nullifier derivation from a note and its leaf position (`note.nf`).  Points,
notes, addresses and keys are opaque identifiers. -/
structure ExtCrypto where
  decode_epk : Bytes → Option Nat
  try_decrypt : Nat → Nat → Nat → Bytes → Option (Nat × Nat)
  ivk_of : Nat → Nat
  derive_nf : Nat → Nat → Bytes

/-- Source `trial_decrypt` (`welding_rig.rs` lines 20–30): thin wrapper turning the
external decryption's `Result` into an `Option`. -/
def trial_decrypt (C : ExtCrypto) (cmu : Nat) (epk : Nat) (enc_ct : Bytes)
    (ivk : Nat) : Option (Nat × Nat) :=
  C.try_decrypt ivk cmu epk enc_ct

/-- Source `WalletShieldedSpend`: a matched spend event (index, nullifier, owning
account). -/
structure WalletShieldedSpend where
  index : Nat
  nf : Bytes
  account : Nat
deriving DecidableEq

/-- Source `WalletShieldedOutput`: a discovered owned output. -/
structure WalletShieldedOutput where
  index : Nat
  cmu : Nat
  epk : Nat
  account : Nat
  note : Nat
  toAddr : Nat
  is_change : Bool
deriving DecidableEq, Inhabited

/-- Source `WalletTx`: a transaction that touched a tracked account. -/
structure WalletTx where
  txid : Bytes
  index : Nat
  num_spends : Nat
  num_outputs : Nat
  shielded_spends : List WalletShieldedSpend
  shielded_outputs : List WalletShieldedOutput
deriving DecidableEq, Inhabited

/-- The trial-decryption loop of `scan_output` (`welding_rig.rs` lines
73–99): viewing keys are tried in ascending account order (`enumerate`), the
first key that decrypts wins, and the discovered output is marked as change
exactly when its account is in the spent-from set. -/
def scan_output_find (C : ExtCrypto) (cmu epk : Nat) (ct : Bytes)
    (spent_from_accounts : List Nat) (index : Nat) :
    Nat → List Nat → Option WalletShieldedOutput
  | _, [] => none
  | account, ivk :: rest =>
      match trial_decrypt C cmu epk ct ivk with
      | some (note, recipient) =>
          some { index := index, cmu := cmu, epk := epk, account := account,
                 note := note, toAddr := recipient,
                 is_change := spent_from_accounts.contains account }
      | none => scan_output_find C cmu epk ct spent_from_accounts index
          (account + 1) rest

/-- Source `scan_output` (`welding_rig.rs` lines 36–101).  The source mutates the
tree and witnesses in place; the embedding returns the updated tree, the
updated existing witnesses, the updated new witnesses, and the optional
discovered output with its fresh witness.  Faithful to the source, a
malformed `cmu` or `epk` encoding returns early — *before* the tree and
witness appends. -/
def scan_output (C : ExtCrypto) (index : Nat) (output : CompactOutput)
    (ivks : List Nat) (spent_from_accounts : List Nat)
    (tree : CommitmentTree Nat)
    (existing_witnesses new_witnesses : List (IncrementalWitness Nat)) :
    CommitmentTree Nat × List (IncrementalWitness Nat) ×
      List (IncrementalWitness Nat) ×
      Option (WalletShieldedOutput × IncrementalWitness Nat) :=
  match read_le_32 output.cmu with
  | none => (tree, existing_witnesses, new_witnesses, none)
  | some repr =>
      match fr_from_repr repr with
      | none => (tree, existing_witnesses, new_witnesses, none)
      | some cmu =>
          match C.decode_epk output.epk with
          | none => (tree, existing_witnesses, new_witnesses, none)
          | some epk =>
              let node := cmu
              let existing := existing_witnesses.map (·.append node)
              let fresh := new_witnesses.map (·.append node)
              let tree1 := tree.append node
              (tree1, existing, fresh,
                (scan_output_find C cmu epk output.ciphertext
                    spent_from_accounts index 0 ivks).map
                  (fun o => (o, IncrementalWitness.from_tree tree1)))

/-- The output loop of `scan_block` (`welding_rig.rs` lines 150–164):
outputs are scanned in index order, threading the tree, the existing
witnesses and the per-transaction new witnesses; a discovered output and its
witness are pushed onto the per-transaction accumulators. -/
def scan_tx_outputs (C : ExtCrypto) (ivks : List Nat)
    (spent_from_accounts : List Nat) :
    List (Nat × CompactOutput) → CommitmentTree Nat →
      List (IncrementalWitness Nat) → List (IncrementalWitness Nat) →
      List WalletShieldedOutput →
      CommitmentTree Nat × List (IncrementalWitness Nat) ×
        List (IncrementalWitness Nat) × List WalletShieldedOutput
  | [], tree, ew, nw, outs => (tree, ew, nw, outs)
  | (i, o) :: rest, tree, ew, nw, outs =>
      match scan_output C i o ivks spent_from_accounts tree ew nw with
      | (tree1, ew1, nw1, none) =>
          scan_tx_outputs C ivks spent_from_accounts rest tree1 ew1 nw1 outs
      | (tree1, ew1, nw1, some (out, w)) =>
          scan_tx_outputs C ivks spent_from_accounts rest tree1 ew1
            (nw1 ++ [w]) (outs ++ [out])

/-- The nullifier match of `scan_block` (`welding_rig.rs` lines 127–133):
`find_map` over the unspent-nullifier list, yielding the account of the
first entry whose nullifier equals the spend's. -/
def find_nf_account (nullifiers : List (Bytes × Nat)) (nf : Bytes) :
    Option Nat :=
  nullifiers.findSome? (fun p => if p.1 = nf then some p.2 else none)

/-- The spend pass of `scan_block` (`welding_rig.rs` lines 122–143): each
spend whose nullifier is found in the unspent-nullifier list yields a
`WalletShieldedSpend` carrying its index, nullifier and owning account. -/
def scan_tx_spends (nullifiers : List (Bytes × Nat))
    (spends : List (Nat × CompactSpend)) : List WalletShieldedSpend :=
  spends.filterMap (fun p =>
    (find_nf_account nullifiers p.2.nf).map
      (fun account => ⟨p.1, p.2.nf, account⟩))

/-- The transaction loop of `scan_block` (`welding_rig.rs` lines 117–181),
threading the tree and existing witnesses across transactions and emitting a
`WalletTx` exactly when the matched spends and discovered outputs are not
both empty. -/
def scan_block_go (C : ExtCrypto) (ivks : List Nat)
    (nullifiers : List (Bytes × Nat)) :
    List CompactTx → CommitmentTree Nat → List (IncrementalWitness Nat) →
      List (WalletTx × List (IncrementalWitness Nat)) →
      CommitmentTree Nat × List (IncrementalWitness Nat) ×
        List (WalletTx × List (IncrementalWitness Nat))
  | [], tree, ew, wtxs => (tree, ew, wtxs)
  | tx :: rest, tree, ew, wtxs =>
      let shielded_spends := scan_tx_spends nullifiers tx.spends.enum
      let spent_from_accounts := shielded_spends.map (·.account)
      match scan_tx_outputs C ivks spent_from_accounts tx.outputs.enum
          tree ew [] [] with
      | (tree1, ew1, new_witnesses, shielded_outputs) =>
          if !(shielded_spends.isEmpty && shielded_outputs.isEmpty) then
            scan_block_go C ivks nullifiers rest tree1 ew1
              (wtxs ++ [({ txid := tx.hash, index := tx.index,
                           num_spends := tx.spends.length,
                           num_outputs := tx.outputs.length,
                           shielded_spends := shielded_spends,
                           shielded_outputs := shielded_outputs },
                         new_witnesses)])
          else
            scan_block_go C ivks nullifiers rest tree1 ew1 wtxs

/-- Source `scan_block` (`welding_rig.rs` lines 107–184): derives the incoming
viewing keys from the extended full viewing keys in account order, then runs
the transaction loop. -/
def scan_block (C : ExtCrypto) (block : CompactBlock) (extfvks : List Nat)
    (nullifiers : List (Bytes × Nat)) (tree : CommitmentTree Nat)
    (existing_witnesses : List (IncrementalWitness Nat)) :
    CommitmentTree Nat × List (IncrementalWitness Nat) ×
      List (WalletTx × List (IncrementalWitness Nat)) :=
  scan_block_go C (extfvks.map C.ivk_of) nullifiers block.vtx tree
    existing_witnesses []

/-! ## Errors (`zcash_client_sqlite/src/lib.rs` `ErrorKind`,
`zcash_client_sqlite/src/chain.rs` `ChainInvalidCause`)

The payload-carrying external error variants (`Bech32`, `Database`, `IO`,
`Protobuf`) are embedded without their opaque payloads. -/

/-- Source `ChainInvalidCause` (`chain.rs` lines 64–67). -/
inductive ChainInvalidCause where
  | PrevHashMismatch
deriving DecidableEq

/-- Source `ErrorKind` (`lib.rs` lines 47–59, together with the `InvalidChain`
variant constructed by `chain.rs`). -/
inductive ErrorKind where
  | IncorrectHRPExtFVK
  | InvalidHeight (expected actual : Int)
  | InvalidNewWitnessAnchor (output : Nat) (txid : Bytes) (last_height : Int)
      (anchor : Nat)
  | InvalidWitnessAnchor (id_note : Nat) (last_height : Int)
  | ScanRequired
  | TableNotEmpty
  | InvalidChain (upper_bound : Int) (cause : ChainInvalidCause)
  | Bech32
  | Database
  | IoError
  | Protobuf
deriving DecidableEq

/-- Source `SAPLING_ACTIVATION_HEIGHT` (`lib.rs` line 45). -/
def SAPLING_ACTIVATION_HEIGHT : Int := 280000

/-! ## The data database (`zcash_client_sqlite`)

Rows of the four tables that `scan_cached_blocks` and `rewind_to_height`
touch.  Serialized blobs (`sapling_tree`, `witness`) are stored in their
structured form — serialization is external I/O; the decrypted note payload
(diversifier, value, rcm) is a function of the opaque note identifier and is
recorded as that identifier. -/

/-- A `blocks` table row (`height, time, sapling_tree`). -/
structure BlockRow where
  height : Int
  time : Nat
  sapling_tree : CommitmentTree Nat
deriving DecidableEq

/-- A `transactions` table row; `block`/`tx_index` are `NULL` for unmined
transactions. -/
structure TxRow where
  id_tx : Nat
  txid : Bytes
  block : Option Int
  tx_index : Option Nat
  expiry_height : Option Int
deriving DecidableEq

/-- A `received_notes` table row; `spent` holds the spending transaction's
row id, `NULL` while unspent. -/
structure NoteRow where
  id_note : Nat
  tx : Nat
  output_index : Nat
  account : Nat
  note : Nat
  nf : Bytes
  is_change : Bool
  spent : Option Nat
deriving DecidableEq

/-- A `sapling_witnesses` table row. -/
structure SaplingWitnessRow where
  note : Nat
  block : Int
  witness : IncrementalWitness Nat
deriving DecidableEq

/-- The data database: the four tables plus the rowid counters SQLite keeps
per table (`last_insert_rowid` generators for `transactions` and
`received_notes`). -/
structure DataDB where
  blocks : List BlockRow
  txs : List TxRow
  notes : List NoteRow
  witnesses : List SaplingWitnessRow
  next_tx_id : Nat
  next_note_id : Nat
deriving DecidableEq

/-- Source `SELECT MAX(height) FROM blocks`, with the shared fallback of `lib.rs`
line 482–490 / `chain.rs` lines 94–101 and 174–181: if the wallet has never
scanned, `SAPLING_ACTIVATION_HEIGHT - 1` is used. -/
def last_scanned_height (db : DataDB) : Int :=
  ((db.blocks.map (·.height)).max?).getD (SAPLING_ACTIVATION_HEIGHT - 1)

/-! ## Chain validation (`zcash_client_sqlite/src/chain.rs`) -/

/-- The walk of `validate_combined_chain` (`chain.rs` lines 127–162) over the
remaining cached rows, carrying the height and declared previous-hash of the
block above; on exhaustion the lowest block's previous-hash is compared with
the hash persisted for the last scanned height (the `blocks` table of
`chain.rs` carries a `hash` column, supplied here as the `(height, hash)`
list `data_blocks`; a missing row surfaces as the database error of
`query_row`).  `hash_at` is the `SELECT hash FROM blocks WHERE height = ?`
lookup. -/
def hash_at (data_blocks : List (Int × Bytes)) (h : Int) : Option Bytes :=
  data_blocks.findSome? (fun p => if p.1 = h then some p.2 else none)

/-- See `validate_combined_chain` below; this is its descending walk. -/
def validate_go (data_blocks : List (Int × Bytes))
    (last_scanned_height : Int) :
    Int → Bytes → List CompactBlock → Except ErrorKind Unit
  | _, last_prev_hash, [] =>
      match hash_at data_blocks last_scanned_height with
      | none => .error .Database
      | some last_scanned_hash =>
          if last_scanned_hash ≠ last_prev_hash then
            .error (.InvalidChain last_scanned_height .PrevHashMismatch)
          else .ok ()
  | last_height, last_prev_hash, row :: rest =>
      if row.height ≠ last_height - 1 then
        .error (.InvalidHeight (last_height - 1) row.height)
      else if row.hash ≠ last_prev_hash then
        .error (.InvalidChain row.height .PrevHashMismatch)
      else validate_go data_blocks last_scanned_height row.height
        row.prev_hash rest

/-- Source `validate_combined_chain` (`chain.rs` lines 85–163).  `rows` is the
result of the cache query `SELECT .. WHERE height > last_scanned_height
ORDER BY height DESC` (the ordering and filtering are performed by SQLite;
theorems about this function hypothesise them).  `data_blocks` is the
`(height, hash)` content of the data database's `blocks` table.  An empty
cache certifies trivially; otherwise the highest cached block is taken as
the trust anchor and the walk descends. -/
def validate_combined_chain (rows : List CompactBlock)
    (data_blocks : List (Int × Bytes)) : Except ErrorKind Unit :=
  let lsh := ((data_blocks.map (·.1)).max?).getD (SAPLING_ACTIVATION_HEIGHT - 1)
  match rows with
  | [] => .ok ()
  | assumed_correct :: rest =>
      validate_go data_blocks lsh assumed_correct.height
        assumed_correct.prev_hash rest

/-- Source `rewind_to_height` (`chain.rs` lines 169–207): a no-op when the target
height is at or above the last scanned height; otherwise, atomically,
witnesses above the target are deleted (`DELETE FROM sapling_witnesses WHERE
block > ?`), transactions above it are un-mined (`UPDATE transactions SET
block = NULL, tx_index = NULL WHERE block > ?`), and block records above it
are deleted (`DELETE FROM blocks WHERE height > ?`). -/
def rewind_to_height (db : DataDB) (height : Int) : DataDB :=
  let lsh := last_scanned_height db
  if height ≥ lsh then db
  else
    { db with
      witnesses := db.witnesses.filter (fun w => ¬ w.block > height),
      txs := db.txs.map (fun t =>
        match t.block with
        | some b =>
            if b > height then { t with block := none, tx_index := none }
            else t
        | none => t),
      blocks := db.blocks.filter (fun b => ¬ b.height > height) }

/-! ## The scan orchestrator (`zcash_client_sqlite/src/lib.rs`
`scan_cached_blocks`, lines 473–743)

The SQL statements are embedded as pure list transformations of `DataDB`;
each cached block's effects are applied as one step of the loop, mirroring
the per-block `BEGIN IMMEDIATE … COMMIT` unit.  The compact blocks arrive
already parsed (protobuf decoding is external I/O).  The extended full
viewing keys are those of the `accounts` table, in ascending account order
(`SELECT extfvk FROM accounts ORDER BY account ASC`). -/

/-- Source `WitnessRow` (`lib.rs` lines 445–449): an in-memory witness together
with the row id of the note it authenticates. -/
structure WitnessRow where
  id_note : Nat
  witness : IncrementalWitness Nat
deriving DecidableEq

/-- The nullifier retention of `lib.rs` lines 667–675: after a transaction's
spends are marked, every nullifier spent by that transaction is removed from
the in-memory unspent-nullifier list (a nullifier is retained exactly when
no spend of the transaction carries it). -/
def remove_spent_nullifiers (spends : List WalletShieldedSpend)
    (nullifiers : List (Bytes × Nat)) : List (Bytes × Nat) :=
  nullifiers.filter (fun p => (spends.find? (fun s => s.nf == p.1)).isNone)

/-- The spend marking of `lib.rs` lines 663–666: `UPDATE received_notes SET
spent = ? WHERE nf = ?` for each matched spend of the transaction. -/
def mark_spent (tx_row : Nat) (spends : List WalletShieldedSpend)
    (notes : List NoteRow) : List NoteRow :=
  notes.map (fun n =>
    if (spends.find? (fun s => s.nf == n.nf)).isSome then
      { n with spent := some tx_row }
    else n)

/-- The transaction upsert of `lib.rs` lines 643–661: first try `UPDATE
transactions SET block = ?, tx_index = ? WHERE txid = ?`; if no row was
affected, insert a fresh row (with `NULL` expiry and raw data) and take its
rowid, otherwise select the existing row's id.  Returns the updated table,
the row id of the transaction, and the next fresh rowid. -/
def upsert_tx (h : Int) (idx : Nat) (txid : Bytes) (txs : List TxRow)
    (next_id : Nat) : List TxRow × Nat × Nat :=
  match txs.find? (fun t => t.txid == txid) with
  | some existing =>
      (txs.map (fun t =>
        if t.txid == txid then
          { t with block := some h, tx_index := some idx }
        else t),
       existing.id_tx, next_id)
  | none =>
      (txs ++ [{ id_tx := next_id, txid := txid, block := some h,
                 tx_index := some idx, expiry_height := none }],
       next_id, next_id + 1)

/-- The received-note persistence of `lib.rs` lines 677–714: for each
discovered output (paired with its new witness), derive the nullifier from
the note and the witness position, insert the note row, remember the
witness for the note's fresh rowid, and cache the nullifier so that
subsequent blocks of the same scan can detect its spend. -/
def persist_outputs (C : ExtCrypto) (tx_row : Nat) :
    List (WalletShieldedOutput × IncrementalWitness Nat) →
      List NoteRow → Nat → List WitnessRow → List (Bytes × Nat) →
      List NoteRow × Nat × List WitnessRow × List (Bytes × Nat)
  | [], notes, nid, wits, nfs => (notes, nid, wits, nfs)
  | (output, witness) :: rest, notes, nid, wits, nfs =>
      let nf := C.derive_nf output.note witness.position
      persist_outputs C tx_row rest
        (notes ++ [{ id_note := nid, tx := tx_row,
                     output_index := output.index,
                     account := output.account, note := output.note,
                     nf := nf, is_change := output.is_change,
                     spent := none }])
        (nid + 1)
        (wits ++ [⟨nid, witness⟩])
        (nfs ++ [(nf, output.account)])

/-- The per-transaction persistence loop of `lib.rs` lines 642–715. -/
def persist_txs (C : ExtCrypto) (h : Int) :
    List (WalletTx × List (IncrementalWitness Nat)) → DataDB →
      List WitnessRow → List (Bytes × Nat) →
      DataDB × List WitnessRow × List (Bytes × Nat)
  | [], db, wits, nfs => (db, wits, nfs)
  | (tx, new_witnesses) :: rest, db, wits, nfs =>
      match upsert_tx h tx.index tx.txid db.txs db.next_tx_id with
      | (txs1, tx_row, ntid) =>
          let notes1 := mark_spent tx_row tx.shielded_spends db.notes
          let nfs1 := remove_spent_nullifiers tx.shielded_spends nfs
          match persist_outputs C tx_row
              (tx.shielded_outputs.zip new_witnesses) notes1
              db.next_note_id wits nfs1 with
          | (notes2, nnid, wits1, nfs2) =>
              persist_txs C h rest
                { db with txs := txs1, notes := notes2,
                          next_tx_id := ntid, next_note_id := nnid }
                wits1 nfs2

/-- The debug-mode anchor check of `lib.rs` lines 606–630: after a block is
scanned, every live witness's recomputed root and every new witness's root
must equal the accumulator's current root; the first mismatch aborts the
scan with `InvalidWitnessAnchor` (live witnesses) or
`InvalidNewWitnessAnchor` (new witnesses). -/
def new_witness_mismatch (comb : Nat → Nat → Nat → Nat) (blank : Nat)
    (D : Nat) (cur_root : Nat) (last_height : Int)
    (p : WalletTx × List (IncrementalWitness Nat)) : Option ErrorKind :=
  p.2.enum.findSome? (fun q =>
    let r := q.2.root comb blank D
    if r ≠ cur_root then
      some (ErrorKind.InvalidNewWitnessAnchor
        ((p.1.shielded_outputs.getD q.1 default).index) p.1.txid
        last_height r)
    else none)

/-- See `check_witness_anchors`; this is its per-transaction inner loop over
the new witnesses (`lib.rs` lines 618–629). -/
def check_witness_anchors (comb : Nat → Nat → Nat → Nat) (blank : Nat)
    (D : Nat) (cur_root : Nat) (witnesses : List WitnessRow)
    (txs : List (WalletTx × List (IncrementalWitness Nat)))
    (last_height : Int) : Except ErrorKind Unit :=
  match witnesses.find?
      (fun row => !(row.witness.root comb blank D == cur_root)) with
  | some row => .error (.InvalidWitnessAnchor row.id_note last_height)
  | none =>
      match txs.findSome?
          (new_witness_mismatch comb blank D cur_root last_height) with
      | some e => .error e
      | none => .ok ()

/-- The block-row insertion of `lib.rs` lines 632–640: the freshly advanced
accumulator is persisted at the scanned height. -/
def insert_block_row (h : Int) (time : Nat) (tree : CommitmentTree Nat)
    (db : DataDB) : DataDB :=
  { db with blocks := db.blocks ++ [⟨h, time, tree⟩] }

/-- The witness storage of `lib.rs` lines 717–730: every live witness is
persisted at the scanned height. -/
def store_witnesses (h : Int) (wits : List WitnessRow) (db : DataDB) :
    DataDB :=
  { db with
    witnesses := db.witnesses ++ wits.map (fun w => ⟨w.id_note, h, w.witness⟩) }

/-- The witness pruning of `lib.rs` lines 732–733: `DELETE FROM
sapling_witnesses WHERE block < ?` with `? = last_height - 100` (rollbacks of
at most 100 blocks are supported). -/
def prune_witnesses (h : Int) (db : DataDB) : DataDB :=
  { db with
    witnesses := db.witnesses.filter (fun w => ¬ w.block < h - 100) }

/-- The expiry release of `lib.rs` lines 735–736: notes whose spending
transaction is still unmined past its expiry height have their spent-mark
cleared. -/
def expire_notes (h : Int) (db : DataDB) : DataDB :=
  { db with
    notes := db.notes.map (fun n =>
      match n.spent with
      | some t =>
          if (db.txs.find? (fun tx =>
              tx.id_tx == t && tx.block == none &&
                (match tx.expiry_height with
                 | some e => decide (e < h)
                 | none => false))).isSome then
            { n with spent := none }
          else n
      | none => n) }

/-- The per-block loop of `scan_cached_blocks` (`lib.rs` lines 579–740):
enforce height sequentiality, scan the block, run the (debug-mode) anchor
check, then persist — insert the block row, upsert each touched transaction
with its spends and outputs, store every live witness at this height, prune
witness history older than 100 blocks, and release the spend-marks of
transactions that expired unmined. -/
def scan_loop (C : ExtCrypto) (comb : Nat → Nat → Nat → Nat) (blank : Nat)
    (D : Nat) (extfvks : List Nat) :
    List CompactBlock → Int → CommitmentTree Nat → List WitnessRow →
      List (Bytes × Nat) → DataDB → Except ErrorKind DataDB
  | [], _, _, _, _, db => .ok db
  | block :: rows, last_height, tree, witnesses, nullifiers, db =>
      if block.height ≠ last_height + 1 then
        .error (.InvalidHeight (last_height + 1) block.height)
      else
        match scan_block C block extfvks nullifiers tree
            (witnesses.map (·.witness)) with
        | (tree1, ew1, txs) =>
            let witnesses1 := ((witnesses.map (·.id_note)).zip ew1).map
              (fun p => WitnessRow.mk p.1 p.2)
            let cur_root := tree1.root comb blank D
            match check_witness_anchors comb blank D cur_root witnesses1 txs
                block.height with
            | .error e => .error e
            | .ok _ =>
                match persist_txs C block.height txs
                    (insert_block_row block.height block.time tree1 db)
                    witnesses1 nullifiers with
                | (db2, wits2, nfs2) =>
                    scan_loop C comb blank D extfvks rows block.height tree1
                      wits2 nfs2
                      (expire_notes block.height
                        (prune_witnesses block.height
                          (store_witnesses block.height wits2 db2)))

/-- Source `scan_cached_blocks` (`lib.rs` lines 473–743): recall the last scanned
height, load the accumulator frontier and the live witnesses persisted at
that height and the unspent nullifiers, then run the per-block loop.
`rows` is the result of the cache query `SELECT .. WHERE height > ? ORDER BY
height ASC` (ordering and filtering performed by SQLite; hypothesised by
theorems where relevant). -/
def scan_cached_blocks (C : ExtCrypto) (comb : Nat → Nat → Nat → Nat)
    (blank : Nat) (D : Nat) (extfvks : List Nat)
    (rows : List CompactBlock) (db : DataDB) : Except ErrorKind DataDB :=
  let last := last_scanned_height db
  let tree := (db.blocks.findSome? (fun b =>
    if b.height = last then some b.sapling_tree else none)).getD
    (CommitmentTree.new Nat)
  let witnesses := db.witnesses.filterMap (fun w =>
    if w.block = last then some (WitnessRow.mk w.note w.witness) else none)
  let nullifiers := db.notes.filterMap (fun n =>
    if n.spent = none then some (n.nf, n.account) else none)
  scan_loop C comb blank D extfvks rows last tree witnesses nullifiers db

/-! ## The Sapling tree hash (`zcash_primitives/src/sapling.rs` `merkle_hash`,
`zcash_primitives/src/pedersen_hash.rs` `pedersen_hash` / `Personalization`,
`zcash_primitives/src/group_hash.rs` `group_hash` / `find_group_hash`)

The Pedersen hash is computed over the Jubjub curve, the twisted Edwards
curve `-x² + y² = 1 + d·x²·y²` over the BLS12-381 scalar field (`a = -1`,
`d = -10240/10241`).  The curve and field arithmetic live in external crates
(`pairing`, and the curve backend behind `jubjub/edwards.rs`); they are
standard, fully determined mathematics and are embedded below as arithmetic
on `Nat` with explicit moduli.  The embedding was cross-checked to
reproduce the well-known Sapling empty-tree roots. -/

/-- The Jubjub scalar-field modulus `s` (`MODULUS` of
`zcash_primitives/src/jubjub/fs.rs`, limbs `0xd0970e5ed6f72cb7,
0xa6682093ccc81082, 0x06673b0101343b00, 0x0e7db4ea6533afa9`). -/
def sFs : Nat :=
  6554484396890773809930967563523245729705921265872317281365359162392183254199

/-- Binary exponentiation modulo `m` (fuelled structural recursion over the
exponent's bits; 300 bits of fuel cover every exponent used here). -/
def powModAux (m : Nat) : Nat → Nat → Nat → Nat
  | 0, _, _ => 1 % m
  | fuel + 1, a, e =>
      if e = 0 then 1 % m
      else
        let h := powModAux m fuel ((a * a) % m) (e / 2)
        if e % 2 = 1 then (h * a) % m else h

/-- Source `a ^ e mod m`. -/
def powMod (m a e : Nat) : Nat := powModAux m 300 a e

/-- Inversion in the BLS12-381 scalar field (Fermat). -/
def invFr (a : Nat) : Nat := powMod rBLS a (rBLS - 2)

/-- The Jubjub `d` parameter, `-(10240/10241)` in the base field (`EDWARDS_D`
of the external curve backend). -/
def dJub : Nat :=
  (rBLS - (10240 * powMod rBLS 10241 (rBLS - 2)) % rBLS) % rBLS

/-- The least `k` (up to the fuel) with `b^(2^k) ≡ 1 (mod m)`. -/
def leastPow (m : Nat) : Nat → Nat → Nat
  | 0, _ => 0
  | fuel + 1, b => if b % m = 1 % m then 0 else 1 + leastPow m fuel ((b * b) % m)

/-- The Tonelli–Shanks main loop (`ff`'s `SqrtField::sqrt` for a field with
2-adicity 32), fuelled. -/
def tsLoop (m : Nat) : Nat → Nat → Nat → Nat → Nat → Nat
  | 0, x, _, _, _ => x
  | fuel + 1, x, b, z, v =>
      if b % m = 1 % m then x % m
      else
        let k := leastPow m 40 b
        let w := powMod m z (2 ^ (v - k - 1))
        tsLoop m fuel ((x * w) % m) ((b * ((w * w) % m)) % m) ((w * w) % m) k

/-- Square roots in the BLS12-381 scalar field: `none` on non-residues
(`Fr::sqrt` of the external field crate; the generator of `Fr` is 7 and
`r - 1 = 2^32 · t`). -/
def sqrtFr (a : Nat) : Option Nat :=
  let a := a % rBLS
  if a = 0 then some 0
  else if powMod rBLS a ((rBLS - 1) / 2) ≠ 1 then none
  else
    let t := (rBLS - 1) / 2 ^ 32
    let w := powMod rBLS a ((t - 1) / 2)
    let x := (a * w) % rBLS
    let b := (x * w) % rBLS
    let z := powMod rBLS 7 t
    some (tsLoop rBLS 40 x b z 32)

/-- A Jubjub point in extended twisted Edwards coordinates
(`(X : Y : Z : T)` with `x = X/Z`, `y = Y/Z`, `T = XY/Z`; the representation
named in the comment of `jubjub/edwards.rs`: "Twisted Edwards Curves
Revisited", Hisil–Wong–Carter–Dawson). -/
structure JPoint where
  x : Nat
  y : Nat
  z : Nat
  t : Nat
deriving DecidableEq

/-- The identity point. -/
def JPoint.zero : JPoint := ⟨0, 1, 1, 0⟩

/-- Subtraction in the base field. -/
def frSub (a b : Nat) : Nat := (a + (rBLS - b % rBLS)) % rBLS

/-- Unified extended addition on the `a = -1` curve (add-2008-hwcd-3, the
formulae of the external curve backend used by `edwards::Point::add`). -/
def padd (p q : JPoint) : JPoint :=
  let a := (frSub p.y p.x * frSub q.y q.x) % rBLS
  let b := ((p.y + p.x) * (q.y + q.x)) % rBLS
  let c := (((p.t * ((2 * dJub) % rBLS)) % rBLS) * q.t) % rBLS
  let dd := (2 * p.z * q.z) % rBLS
  let e := frSub b a
  let f := frSub dd c
  let g := (dd + c) % rBLS
  let h := (b + a) % rBLS
  ⟨(e * f) % rBLS, (g * h) % rBLS, (f * g) % rBLS, (e * h) % rBLS⟩

/-- Extended doubling on the `a = -1` curve (dbl-2008-hwcd, the formulae of
the external curve backend used by `edwards::Point::double`). -/
def pdouble (p : JPoint) : JPoint :=
  let a := (p.x * p.x) % rBLS
  let b := (p.y * p.y) % rBLS
  let c := (2 * p.z * p.z) % rBLS
  let dd := frSub 0 a
  let e := frSub (frSub (((p.x + p.y) * (p.x + p.y)) % rBLS) a) b
  let g := (dd + b) % rBLS
  let f := frSub g c
  let h := frSub dd b
  ⟨(e * f) % rBLS, (g * h) % rBLS, (f * g) % rBLS, (e * h) % rBLS⟩

/-- Identity on its second argument that forces the first to a numeral
before continuing: keeps kernel evaluation of the fuelled loops below
shallow (each step's coordinates are evaluated before the next step is
entered). -/
def nforce {α : Type} : Nat → α → α
  | 0, a => a
  | _ + 1, a => a

/-- Identity on its second argument, forcing all four coordinates. -/
def jforce {α : Type} (p : JPoint) (a : α) : α :=
  nforce p.x (nforce p.y (nforce p.z (nforce p.t a)))

/-- Double-and-add scalar multiplication (`edwards::Point::mul`), fuelled
over 256 scalar bits. -/
def pmulAux : Nat → JPoint → Nat → JPoint → JPoint
  | 0, _, _, acc => acc
  | fuel + 1, p, k, acc =>
      if k = 0 then acc
      else
        let p2 := pdouble p
        let acc2 := if k % 2 = 1 then padd acc p else acc
        jforce p2 (jforce acc2 (pmulAux fuel p2 (k / 2) acc2))

/-- Source `p · k` on Jubjub. -/
def pmul (p : JPoint) (k : Nat) : JPoint := pmulAux 256 p k JPoint.zero

/-- Projective equality of extended points. -/
def peq (p q : JPoint) : Bool :=
  (p.x * q.z) % rBLS = (q.x * p.z) % rBLS ∧
    (p.y * q.z) % rBLS = (q.y * p.z) % rBLS

/-- Source `into_xy` (`jubjub/edwards.rs` line 121): the affine coordinates. -/
def into_xy (p : JPoint) : Nat × Nat :=
  ((p.x * invFr p.z) % rBLS, (p.y * invFr p.z) % rBLS)

/-- Little-endian value of a byte string. -/
def leVal (b : Bytes) : Nat := b.foldr (fun byte acc => byte + 256 * acc) 0

/-- Source `edwards::Point::read` (`jubjub/edwards.rs` lines 62–73, delegating to
the external backend's decompression): 32 little-endian bytes carry the `y`
coordinate with the sign of `x` in the top bit; the encoding is rejected if
`y` is non-canonical or `(y² - 1)/(d·y² + 1)` is a non-residue; the root
with matching parity is taken as `x`. -/
def point_read (b : Bytes) : Option JPoint :=
  if b.length < 32 then none
  else
    let v := leVal (b.take 32)
    let sign := v / 2 ^ 255
    let y := v % 2 ^ 255
    if y ≥ rBLS then none
    else
      let num := frSub ((y * y) % rBLS) 1
      let den := (((dJub * y) % rBLS * y) % rBLS + 1) % rBLS
      match sqrtFr ((num * invFr den) % rBLS) with
      | none => none
      | some x =>
          let x := if x % 2 ≠ sign % 2 then (rBLS - x) % rBLS else x
          some ⟨x, y, 1, (x * y) % rBLS⟩

/-! ### BLAKE2s (the external `blake2s_simd` crate consumed by
`group_hash.rs`), per RFC 7693, with the 8-byte personalization used through
`Params::new().hash_length(32).personal(..)`. -/

/-- Truncation to 32 bits. -/
def w32 (x : Nat) : Nat := x % 2 ^ 32

/-- Right rotation on 32-bit words. -/
def rotr32 (x n : Nat) : Nat :=
  (x / 2 ^ n) + w32 (x * 2 ^ (32 - n))

/-- The BLAKE2s initialization vector. -/
def blakeIV : List Nat :=
  [0x6A09E667, 0xBB67AE85, 0x3C6EF372, 0xA54FF53A,
   0x510E527F, 0x9B05688C, 0x1F83D9AB, 0x5BE0CD19]

/-- The BLAKE2s message schedule. -/
def blakeSigma : List (List Nat) :=
  [[0, 1, 2, 3, 4, 5, 6, 7, 8, 9, 10, 11, 12, 13, 14, 15],
   [14, 10, 4, 8, 9, 15, 13, 6, 1, 12, 0, 2, 11, 7, 5, 3],
   [11, 8, 12, 0, 5, 2, 15, 13, 10, 14, 3, 6, 7, 1, 9, 4],
   [7, 9, 3, 1, 13, 12, 11, 14, 2, 6, 5, 10, 4, 0, 15, 8],
   [9, 0, 5, 7, 2, 4, 10, 15, 14, 1, 11, 12, 6, 8, 3, 13],
   [2, 12, 6, 10, 0, 11, 8, 3, 4, 13, 7, 5, 15, 14, 1, 9],
   [12, 5, 1, 15, 14, 13, 4, 10, 0, 7, 6, 3, 9, 2, 8, 11],
   [13, 11, 7, 14, 12, 1, 3, 9, 5, 0, 15, 4, 8, 6, 2, 10],
   [6, 15, 14, 9, 11, 3, 0, 8, 12, 2, 13, 7, 1, 4, 10, 5],
   [10, 2, 8, 4, 7, 6, 1, 5, 15, 11, 9, 14, 3, 12, 13, 0]]

/-- Word lookup in a state vector. -/
def lget (l : List Nat) (i : Nat) : Nat := l.getD i 0

/-- Word update in a state vector. -/
def lset (l : List Nat) (i x : Nat) : List Nat :=
  l.take i ++ [x] ++ l.drop (i + 1)

/-- The 16-word working vector of the BLAKE2s compression function
(RFC 7693 section 3.2). -/
structure BlakeState where
  v0 : Nat
  v1 : Nat
  v2 : Nat
  v3 : Nat
  v4 : Nat
  v5 : Nat
  v6 : Nat
  v7 : Nat
  v8 : Nat
  v9 : Nat
  v10 : Nat
  v11 : Nat
  v12 : Nat
  v13 : Nat
  v14 : Nat
  v15 : Nat

/-- The BLAKE2s mixing function G (RFC 7693 section 3.1) on the four words
it touches, returned in position order. -/
def blakeG (va vb vc vd x y : Nat) : Nat × Nat × Nat × Nat :=
  let va := w32 (va + vb + x)
  let vd := rotr32 (Nat.xor vd va) 16
  let vc := w32 (vc + vd)
  let vb := rotr32 (Nat.xor vb vc) 12
  let va := w32 (va + vb + y)
  let vd := rotr32 (Nat.xor vd va) 8
  let vc := w32 (vc + vd)
  let vb := rotr32 (Nat.xor vb vc) 7
  (va, vb, vc, vd)

/-- Identity on its second argument that forces all sixteen state words
(the `BlakeState` analogue of `nforce`, keeping kernel evaluation of the
round loop shallow). -/
def bforce {α : Type} (v : BlakeState) (a : α) : α :=
  nforce v.v0 (nforce v.v1 (nforce v.v2 (nforce v.v3 (nforce v.v4
    (nforce v.v5 (nforce v.v6 (nforce v.v7 (nforce v.v8 (nforce v.v9
      (nforce v.v10 (nforce v.v11 (nforce v.v12 (nforce v.v13
        (nforce v.v14 (nforce v.v15 a)))))))))))))))

/-- One BLAKE2s round (RFC 7693 section 3.2): the four column mixes
followed by the four diagonal mixes, message words selected by the round
schedule `sg`. -/
def blakeRound (m : List Nat) (sg : List Nat) (v0 : BlakeState) : BlakeState :=
  let q1 := blakeG v0.v0 v0.v4 v0.v8 v0.v12
    (lget m (lget sg 0)) (lget m (lget sg 1))
  let w1 : BlakeState :=
    ⟨q1.1, v0.v1, v0.v2, v0.v3,
     q1.2.1, v0.v5, v0.v6, v0.v7,
     q1.2.2.1, v0.v9, v0.v10, v0.v11,
     q1.2.2.2, v0.v13, v0.v14, v0.v15⟩
  let q2 := blakeG w1.v1 w1.v5 w1.v9 w1.v13
    (lget m (lget sg 2)) (lget m (lget sg 3))
  let w2 : BlakeState :=
    ⟨w1.v0, q2.1, w1.v2, w1.v3,
     w1.v4, q2.2.1, w1.v6, w1.v7,
     w1.v8, q2.2.2.1, w1.v10, w1.v11,
     w1.v12, q2.2.2.2, w1.v14, w1.v15⟩
  let q3 := blakeG w2.v2 w2.v6 w2.v10 w2.v14
    (lget m (lget sg 4)) (lget m (lget sg 5))
  let w3 : BlakeState :=
    ⟨w2.v0, w2.v1, q3.1, w2.v3,
     w2.v4, w2.v5, q3.2.1, w2.v7,
     w2.v8, w2.v9, q3.2.2.1, w2.v11,
     w2.v12, w2.v13, q3.2.2.2, w2.v15⟩
  let q4 := blakeG w3.v3 w3.v7 w3.v11 w3.v15
    (lget m (lget sg 6)) (lget m (lget sg 7))
  let w4 : BlakeState :=
    ⟨w3.v0, w3.v1, w3.v2, q4.1,
     w3.v4, w3.v5, w3.v6, q4.2.1,
     w3.v8, w3.v9, w3.v10, q4.2.2.1,
     w3.v12, w3.v13, w3.v14, q4.2.2.2⟩
  let q5 := blakeG w4.v0 w4.v5 w4.v10 w4.v15
    (lget m (lget sg 8)) (lget m (lget sg 9))
  let w5 : BlakeState :=
    ⟨q5.1, w4.v1, w4.v2, w4.v3,
     w4.v4, q5.2.1, w4.v6, w4.v7,
     w4.v8, w4.v9, q5.2.2.1, w4.v11,
     w4.v12, w4.v13, w4.v14, q5.2.2.2⟩
  let q6 := blakeG w5.v1 w5.v6 w5.v11 w5.v12
    (lget m (lget sg 10)) (lget m (lget sg 11))
  let w6 : BlakeState :=
    ⟨w5.v0, q6.1, w5.v2, w5.v3,
     w5.v4, w5.v5, q6.2.1, w5.v7,
     w5.v8, w5.v9, w5.v10, q6.2.2.1,
     q6.2.2.2, w5.v13, w5.v14, w5.v15⟩
  let q7 := blakeG w6.v2 w6.v7 w6.v8 w6.v13
    (lget m (lget sg 12)) (lget m (lget sg 13))
  let w7 : BlakeState :=
    ⟨w6.v0, w6.v1, q7.1, w6.v3,
     w6.v4, w6.v5, w6.v6, q7.2.1,
     q7.2.2.1, w6.v9, w6.v10, w6.v11,
     w6.v12, q7.2.2.2, w6.v14, w6.v15⟩
  let q8 := blakeG w7.v3 w7.v4 w7.v9 w7.v14
    (lget m (lget sg 14)) (lget m (lget sg 15))
  ⟨w7.v0, w7.v1, w7.v2, q8.1,
   q8.2.1, w7.v5, w7.v6, w7.v7,
   w7.v8, q8.2.2.1, w7.v10, w7.v11,
   w7.v12, w7.v13, q8.2.2.2, w7.v15⟩

/-- Split a (padded) 64-byte block into 16 little-endian words. -/
def blockWords : Nat → Bytes → List Nat
  | 0, _ => []
  | k + 1, b => leVal (b.take 4) :: blockWords k (b.drop 4)

/-- The BLAKE2s compression function (RFC 7693 section 3.2): the working
vector is initialized from the chaining value and the IV with the byte
counter and finalization flag folded in, mixed for ten rounds, and folded
back into the chaining value. -/
def blakeCompress (h : List Nat) (block : Bytes) (tcount : Nat)
    (final : Bool) : List Nat :=
  let m := blockWords 16 block
  let v : BlakeState :=
    ⟨lget h 0, lget h 1, lget h 2, lget h 3,
     lget h 4, lget h 5, lget h 6, lget h 7,
     0x6A09E667, 0xBB67AE85, 0x3C6EF372, 0xA54FF53A,
     Nat.xor 0x510E527F (w32 tcount),
     Nat.xor 0x9B05688C (w32 (tcount / 2 ^ 32)),
     if final then Nat.xor 0x1F83D9AB (2 ^ 32 - 1) else 0x1F83D9AB,
     0x5BE0CD19⟩
  let v := blakeSigma.foldl (fun v sg => bforce v (blakeRound m sg v)) v
  [Nat.xor (lget h 0) (Nat.xor v.v0 v.v8),
   Nat.xor (lget h 1) (Nat.xor v.v1 v.v9),
   Nat.xor (lget h 2) (Nat.xor v.v2 v.v10),
   Nat.xor (lget h 3) (Nat.xor v.v3 v.v11),
   Nat.xor (lget h 4) (Nat.xor v.v4 v.v12),
   Nat.xor (lget h 5) (Nat.xor v.v5 v.v13),
   Nat.xor (lget h 6) (Nat.xor v.v6 v.v14),
   Nat.xor (lget h 7) (Nat.xor v.v7 v.v15)]

/-- The block loop of BLAKE2s (fuelled on the block count): every block but
the last is compressed with a running byte counter; the last block is
padded and compressed with the finalization flag. -/
def blakeBlocks (total : Nat) : Nat → List Nat → Bytes → Nat → List Nat
  | 0, h, _, _ => h
  | fuel + 1, h, data, done =>
      if data.length ≤ 64 then
        blakeCompress h data total true
      else
        blakeBlocks total fuel
          (blakeCompress h (data.take 64) (done + 64) false)
          (data.drop 64) (done + 64)

/-- Serialize eight state words into 32 little-endian bytes. -/
def wordsToBytes (ws : List Nat) : Bytes :=
  ws.flatMap (fun w => [w % 256, w / 256 % 256, w / 2 ^ 16 % 256, w / 2 ^ 24 % 256])

/-- Unkeyed BLAKE2s-256 with an 8-byte personalization: the parameter block
(digest length 32, fanout 1, depth 1, personalization in words 6–7) is
XORed into the IV and the message is compressed block by block. -/
def blake2s_personal (person data : Bytes) : Bytes :=
  let h := blakeIV
  let h := lset h 0 (Nat.xor (lget h 0) 0x01010020)
  let h := lset h 6 (Nat.xor (lget h 6) (leVal (person.take 4)))
  let h := lset h 7 (Nat.xor (lget h 7) (leVal ((person.drop 4).take 4)))
  wordsToBytes (blakeBlocks data.length 64 h data 0)

/-! ### Group hash and the Pedersen hash -/

/-- Source `GH_FIRST_BLOCK` — the 64-byte ASCII constant
`"096b36a5804bfacef1691e173c366a47ff5ba84a44f26ddd7e8d9f79d5b42df0"`.
Modelled from the spec: it lives in `zcash_primitives/src/constants.rs`,
which is declared in `lib.rs` but absent from `src/`; the spec (§6) treats
the group-hash inputs as fixed well-known constants. -/
def GH_FIRST_BLOCK : Bytes :=
  "096b36a5804bfacef1691e173c366a47ff5ba84a44f26ddd7e8d9f79d5b42df0".toList.map
    Char.toNat

/-- Source `PEDERSEN_HASH_GENERATORS_PERSONALIZATION` — the 8-byte ASCII
personalization `"Zcash_PH"`.  Modelled from the spec: also a well-known
constant of the absent `constants.rs`. -/
def PEDERSEN_HASH_GENERATORS_PERSONALIZATION : Bytes :=
  "Zcash_PH".toList.map Char.toNat

/-- Source `group_hash` (`group_hash.rs` lines 17–48): BLAKE2s over
`GH_FIRST_BLOCK ++ tag` with the given personalization, decoded as a point,
multiplied by the cofactor (three doublings, `mul_by_cofactor` of
`jubjub/edwards.rs` line 77–81), and rejected if the result is the
identity. -/
def group_hash (tag : Bytes) (personalization : Bytes) : Option JPoint :=
  match point_read (blake2s_personal personalization
      (GH_FIRST_BLOCK ++ tag)) with
  | none => none
  | some p =>
      let p := pdouble (pdouble (pdouble p))
      if peq p JPoint.zero then none else some p

/-- The counter loop of `find_group_hash` (`group_hash.rs` lines 50–75):
a single counter byte is appended to the message and incremented until the
group hash succeeds (the source asserts the counter never wraps; 256 fuel
models that bound). -/
def find_group_hash_aux (m : Bytes) (personalization : Bytes) :
    Nat → Nat → Option JPoint
  | 0, _ => none
  | fuel + 1, i =>
      match group_hash (m ++ [i]) personalization with
      | some gh => some gh
      | none => find_group_hash_aux m personalization fuel (i + 1)

/-- Source `find_group_hash` (`group_hash.rs`): the first successful group hash. -/
def find_group_hash (m : Bytes) (personalization : Bytes) : JPoint :=
  (find_group_hash_aux m personalization 256 0).getD JPoint.zero

/-- The Pedersen-hash segment generators.  Modelled from the spec: the
`JubjubBls12` parameter construction (`zcash_primitives/src/jubjub/mod.rs`)
is declared but absent from `src/`; per the protocol it derives generator
`i` via `find_group_hash` (which is in `src/group_hash.rs`) from the 4-byte
little-endian segment index under the `"Zcash_PH"` personalization.  Three
segments cover the 516-bit Merkle-node input. -/
def pedersen_hash_generators : List JPoint :=
  [find_group_hash [0, 0, 0, 0] PEDERSEN_HASH_GENERATORS_PERSONALIZATION,
   find_group_hash [1, 0, 0, 0] PEDERSEN_HASH_GENERATORS_PERSONALIZATION,
   find_group_hash [2, 0, 0, 0] PEDERSEN_HASH_GENERATORS_PERSONALIZATION]

/-- Source `Personalization` (`pedersen_hash.rs` lines 6–10). -/
inductive Personalization where
  | NoteCommitment
  | MerkleTree (num : Nat)
deriving DecidableEq

/-- Source `Personalization::get_bits` (`pedersen_hash.rs` lines 12–24): six
domain-separation bits; for `MerkleTree(num)` (`num < 63` asserted by the
source) they are the six low bits of the depth, least significant first. -/
def Personalization.get_bits : Personalization → List Bool
  | .NoteCommitment => [true, true, true, true, true, true]
  | .MerkleTree num => (List.range 6).map (fun i => (num >>> i) % 2 = 1)

/-- The inner chunk loop of `pedersen_hash` (`pedersen_hash.rs` lines
46–76): up to `chunks_per_generator = 63` three-bit chunks are folded into
one scalar of the Jubjub scalar field — `tmp = cur·(1 + a + 2b)`, negated
when `c` is set, accumulated, with `cur` scaled by `2^4` between chunks
(one doubling inside the chunk and three after it).  Returns the
accumulated scalar and the remaining bits. -/
def pedersenSegment : Nat → Nat → Nat → List Bool → Nat × List Bool
  | _, _, acc, [] => (acc, [])
  | 0, _, acc, bits => (acc, bits)
  | chunks + 1, cur, acc, a :: rest =>
      let b := rest.headD false
      let c := (rest.drop 1).headD false
      let rest2 := rest.drop 2
      let tmp := if a then (cur + cur) % sFs else cur
      let cur2 := (cur * 2) % sFs
      let tmp2 := if b then (tmp + cur2) % sFs else tmp
      let tmp3 := if c then (sFs - tmp2) % sFs else tmp2
      let acc2 := (acc + tmp3) % sFs
      if chunks = 0 then (acc2, rest2)
      else pedersenSegment chunks ((cur2 * 8) % sFs) acc2 rest2

/-- The outer generator loop of `pedersen_hash` (`pedersen_hash.rs` lines
39–118): while bits remain, fold the next 63 chunks into a scalar and add
that multiple of the next generator (the source's windowed-table inner loop
computes exactly the scalar multiple `generator · acc`; the table lives in
the external parameters). -/
def pedersenFold : List JPoint → List Bool → JPoint → JPoint
  | _, [], res => res
  | [], _, res => res
  | gen :: gens, bits, res =>
      match pedersenSegment 63 1 0 bits with
      | (acc, rest) => pedersenFold gens rest (padd res (pmul gen acc))

/-- Source `pedersen_hash` (`pedersen_hash.rs` lines 26–121): the personalization
bits are prepended to the input bits and the chunked scalars multiply the
successive segment generators. -/
def pedersen_hash (personalization : Personalization) (bits : List Bool) :
    JPoint :=
  pedersenFold pedersen_hash_generators
    (personalization.get_bits ++ bits) JPoint.zero

/-- The least-significant `n` bits of a field element, least significant
first (the bit-array construction of `merkle_hash`, `sapling.rs` lines
21–35, followed by `take (Fr::NUM_BITS) = take 255`: `BitIterator` yields
the 256 bits most significant first into a reversed array, so the array
holds the bits least significant first). -/
def leBits (n x : Nat) : List Bool :=
  (List.range n).map (fun i => (x >>> i) % 2 = 1)

/-- Source `merkle_hash` (`sapling.rs` lines 19–47): the Pedersen hash, under the
depth-indexed `MerkleTree` personalization, of the 255 little-endian bits
of each child, returning the `x` coordinate (`into_xy().0`). -/
def merkle_hash (depth : Nat) (lhs rhs : Nat) : Nat :=
  (into_xy (pedersen_hash (Personalization.MerkleTree depth)
    (leBits 255 lhs ++ leBits 255 rhs))).1

/-- Source `Note::uncommitted()` — the well-known empty-leaf constant, the field
element 1.  Modelled from the spec: the note type lives in the external
`sapling_crypto` crate (`Node::blank()` in `sapling.rs` line 82 delegates
to it); the spec (§6) lists `empty_leaf` among the well-known constants. -/
def uncommitted : Nat := 1

/-! ## Specification-side predicates and scenario constants used by the
theorems below. -/

/-- Specification-side: the cached rows (descending) are exactly
height-sequential below the given height. -/
def heights_sequential_desc : Int → List CompactBlock → Bool
  | _, [] => true
  | h, r :: rest => r.height == h - 1 && heights_sequential_desc r.height rest

/-- Specification-side: the height of the first block (walking downward)
whose claimed hash differs from the declared previous-hash of the block
above it, if any. -/
def first_link_break : Bytes → List CompactBlock → Option Int
  | _, [] => none
  | prev, r :: rest =>
      if r.hash ≠ prev then some r.height else first_link_break r.prev_hash rest

/-- Specification-side: the previous-hash declared by the lowest block of
the walk (the given hash if no blocks remain). -/
def lowest_prev_from : Bytes → List CompactBlock → Bytes
  | prev, [] => prev
  | _, r :: rest => lowest_prev_from r.prev_hash rest

/-- Refinement of `scan_block` following the spec's words (§4.3 "Output"):
the same transaction loop, but every transaction's scan result is kept,
whether or not it touched a tracked account.  Comparing `scan_block`
against a filter over this function settles which transactions contribute
to the returned list. -/
def scan_block_all_go (C : ExtCrypto) (ivks : List Nat)
    (nullifiers : List (Bytes × Nat)) :
    List CompactTx → CommitmentTree Nat → List (IncrementalWitness Nat) →
      List (WalletTx × List (IncrementalWitness Nat)) →
      CommitmentTree Nat × List (IncrementalWitness Nat) ×
        List (WalletTx × List (IncrementalWitness Nat))
  | [], tree, ew, wtxs => (tree, ew, wtxs)
  | tx :: rest, tree, ew, wtxs =>
      let shielded_spends := scan_tx_spends nullifiers tx.spends.enum
      let spent_from_accounts := shielded_spends.map (·.account)
      match scan_tx_outputs C ivks spent_from_accounts tx.outputs.enum
          tree ew [] [] with
      | (tree1, ew1, new_witnesses, shielded_outputs) =>
          scan_block_all_go C ivks nullifiers rest tree1 ew1
            (wtxs ++ [({ txid := tx.hash, index := tx.index,
                         num_spends := tx.spends.length,
                         num_outputs := tx.outputs.length,
                         shielded_spends := shielded_spends,
                         shielded_outputs := shielded_outputs },
                       new_witnesses)])

/-- Refinement of `scan_block` keeping all transactions (see
`scan_block_all_go`). -/
def scan_block_all (C : ExtCrypto) (block : CompactBlock)
    (extfvks : List Nat) (nullifiers : List (Bytes × Nat))
    (tree : CommitmentTree Nat)
    (existing_witnesses : List (IncrementalWitness Nat)) :
    CommitmentTree Nat × List (IncrementalWitness Nat) ×
      List (WalletTx × List (IncrementalWitness Nat)) :=
  scan_block_all_go C (extfvks.map C.ivk_of) nullifiers block.vtx tree
    existing_witnesses []

/-- External crypto used by the concrete error-handling scenarios: a point
decoder that accepts exactly the 32-byte encodings, and a trial decryption
that never succeeds. -/
def rigidCrypto : ExtCrypto where
  decode_epk := fun b => if b.length = 32 then some 0 else none
  try_decrypt := fun _ _ _ _ => none
  ivk_of := fun k => k
  derive_nf := fun _ _ => []

/-- A compact output with a well-formed 32-byte commitment encoding (the
field element 1) and a malformed (empty) ephemeral-key encoding. -/
def malformedEpkOutput : CompactOutput :=
  { cmu := 1 :: List.replicate 31 0, epk := [], ciphertext := [] }

/-- A compact output with well-formed encodings (commitment 2). -/
def wellFormedOutput : CompactOutput :=
  { cmu := 2 :: List.replicate 31 0, epk := List.replicate 32 0,
    ciphertext := [] }

/-- A block whose single transaction carries the malformed-`epk` output
followed by a well-formed output. -/
def corruptOutputBlock : CompactBlock :=
  { height := SAPLING_ACTIVATION_HEIGHT, hash := [], prev_hash := [],
    time := 0,
    vtx := [{ hash := List.replicate 32 0, index := 0, spends := [],
              outputs := [malformedEpkOutput, wellFormedOutput] }] }

/-- A block with two transactions, each spending the same nullifier `[1]`. -/
def doubleSpendBlock : CompactBlock :=
  { height := SAPLING_ACTIVATION_HEIGHT, hash := [], prev_hash := [],
    time := 0,
    vtx := [{ hash := List.replicate 32 0, index := 0,
              spends := [{ nf := [1] }], outputs := [] },
            { hash := List.replicate 32 1, index := 1,
              spends := [{ nf := [1] }], outputs := [] }] }

/-- The last-scanned height recalled by `validate_combined_chain` from the
data database's `blocks` table rows. -/
def data_last_scanned (data_blocks : List (Int × Bytes)) : Int :=
  ((data_blocks.map (·.1)).max?).getD (SAPLING_ACTIVATION_HEIGHT - 1)

/-- External crypto used by the concrete discovery scenarios: the 32-byte
point decoder together with a trial decryption that always succeeds
(yielding the opaque note 5 at address 6). -/
def permissiveCrypto : ExtCrypto where
  decode_epk := fun b => if b.length = 32 then some 0 else none
  try_decrypt := fun _ _ _ _ => some (5, 6)
  ivk_of := fun k => k
  derive_nf := fun note pos => [note, pos]

/-- A block whose single transaction spends nullifier `[1]` and carries one
well-formed output. -/
def spendAndReceiveBlock : CompactBlock :=
  { height := SAPLING_ACTIVATION_HEIGHT, hash := [], prev_hash := [],
    time := 0,
    vtx := [{ hash := List.replicate 32 0, index := 0,
              spends := [{ nf := [1] }],
              outputs := [wellFormedOutput] }] }

/-! # Theorems -/

/-! ## Tree lemmas -/

theorem emptyAt_succ {A : Type} (comb : Nat → A → A → A) (blank : A)
    (d : Nat) :
    emptyAt comb blank (d + 1) =
      comb d (emptyAt comb blank d) (emptyAt comb blank d) := rfl

theorem buildLevel_getD {A : Type} (comb : Nat → A → A → A) (blank : A)
    (d : Nat) :
    ∀ (q : Nat) (l : List A),
      (buildLevel comb blank d l).getD q (emptyAt comb blank (d + 1)) =
        comb d (l.getD (2 * q) (emptyAt comb blank d))
          (l.getD (2 * q + 1) (emptyAt comb blank d)) := by
  intro q
  induction q with
  | zero =>
      intro l
      match l with
      | [] => simp [buildLevel, emptyAt_succ]
      | [x] => simp [buildLevel]
      | x :: y :: rest => simp [buildLevel]
  | succ q ih =>
      intro l
      match l with
      | [] => simp [buildLevel, emptyAt_succ]
      | [x] =>
          have h2 : 2 * (q + 1) = 2 * q + 1 + 1 := by omega
          simp [buildLevel, h2, emptyAt_succ]
      | x :: y :: rest =>
          have h2 : 2 * (q + 1) = 2 * q + 1 + 1 := by omega
          simp only [buildLevel, h2, List.getD_cons_succ]
          exact ih rest

theorem foldPath_sibList {A : Type} (comb : Nat → A → A → A) (blank : A) :
    ∀ (k d p : Nat) (l : List A), p < 2 ^ k →
      foldPath comb d p (l.getD p (emptyAt comb blank d))
        (sibList comb blank d k p l) = rootUp comb blank d k l := by
  intro k
  induction k with
  | zero =>
      intro d p l hp
      have : p = 0 := by simpa using hp
      subst this
      simp [sibList, foldPath, rootUp]
  | succ k ih =>
      intro d p l hp
      have hhalf : p / 2 < 2 ^ k := by
        have h2 : (0:Nat) < 2 := by omega
        rw [Nat.div_lt_iff_lt_mul h2]
        calc p < 2 ^ (k + 1) := hp
          _ = 2 ^ k * 2 := by rw [Nat.pow_succ]
      have hstep :
          (if p % 2 = 0 then
            comb d (l.getD p (emptyAt comb blank d))
              (l.getD (if p % 2 = 0 then p + 1 else p - 1)
                (emptyAt comb blank d))
          else
            comb d (l.getD (if p % 2 = 0 then p + 1 else p - 1)
                (emptyAt comb blank d))
              (l.getD p (emptyAt comb blank d))) =
          (buildLevel comb blank d l).getD (p / 2)
            (emptyAt comb blank (d + 1)) := by
        rw [buildLevel_getD]
        by_cases hp2 : p % 2 = 0
        · have e1 : 2 * (p / 2) = p := by omega
          have e2 : 2 * (p / 2) + 1 = p + 1 := by omega
          simp [hp2, e1, e2]
        · have e1 : 2 * (p / 2) = p - 1 := by omega
          have e2 : 2 * (p / 2) + 1 = p := by omega
          have e3 : p - 1 + 1 = p := by omega
          simp [hp2, e1, e2, e3]
      calc foldPath comb d p (l.getD p (emptyAt comb blank d))
            (sibList comb blank d (k + 1) p l)
          = foldPath comb (d + 1) (p / 2)
              ((buildLevel comb blank d l).getD (p / 2)
                (emptyAt comb blank (d + 1)))
              (sibList comb blank (d + 1) k (p / 2)
                (buildLevel comb blank d l)) := by
            rw [sibList, foldPath, hstep]
        _ = rootUp comb blank (d + 1) k (buildLevel comb blank d l) :=
            ih (d + 1) (p / 2) (buildLevel comb blank d l) hhalf
        _ = rootUp comb blank d (k + 1) l := by rw [rootUp]

theorem tree_appendList_leaves {A : Type} :
    ∀ (ns : List A) (t : CommitmentTree A),
      (t.appendList ns).leaves = t.leaves ++ ns := by
  intro ns
  induction ns with
  | nil => intro t; simp [CommitmentTree.appendList]
  | cons n ns ih =>
      intro t
      have h1 : t.appendList (n :: ns) = (t.append n).appendList ns := rfl
      rw [h1, ih]
      simp [CommitmentTree.append]

theorem witness_appendList_leaves {A : Type} :
    ∀ (ns : List A) (w : IncrementalWitness A),
      (w.appendList ns).leaves = w.leaves ++ ns ∧
        (w.appendList ns).pos = w.pos := by
  intro ns
  induction ns with
  | nil => intro w; simp [IncrementalWitness.appendList]
  | cons n ns ih =>
      intro w
      have h1 : w.appendList (n :: ns) = (w.append n).appendList ns := rfl
      rw [h1]
      rcases ih (w.append n) with ⟨h2, h3⟩
      refine ⟨?_, ?_⟩
      · rw [h2]; simp [IncrementalWitness.append]
      · rw [h3]; rfl

theorem witness_root_eq_tree_root {A : Type} (comb : Nat → A → A → A)
    (blank : A) (D : Nat) (w : IncrementalWitness A)
    (t : CommitmentTree A) (hl : w.leaves = t.leaves)
    (hp : w.pos < 2 ^ D) :
    w.root comb blank D = t.root comb blank D := by
  rw [IncrementalWitness.root, IncrementalWitness.path, hl,
    CommitmentTree.root]
  exact foldPath_sibList comb blank D 0 w.pos t.leaves hp

theorem enum_snd_mem {A : Type} {l : List A} {q : Nat × A}
    (hq : q ∈ l.enum) : q.2 ∈ l := by
  have := List.enum_map_snd l
  rw [← this]
  exact List.mem_map.mpr ⟨q, hq, rfl⟩

theorem mem_enum_of_mem {A : Type} {l : List A} {w : A} (hw : w ∈ l) :
    ∃ q ∈ l.enum, q.2 = w := by
  have := List.enum_map_snd l
  rw [← this] at hw
  exact List.mem_map.mp hw

theorem new_witness_mismatch_none_iff (comb : Nat → Nat → Nat → Nat)
    (blank : Nat) (D : Nat) (cur_root : Nat) (h : Int)
    (p : WalletTx × List (IncrementalWitness Nat)) :
    new_witness_mismatch comb blank D cur_root h p = none ↔
      ∀ w ∈ p.2, w.root comb blank D = cur_root := by
  rw [new_witness_mismatch, List.findSome?_eq_none_iff]
  constructor
  · intro hall w hw
    obtain ⟨q, hq, hqe⟩ := mem_enum_of_mem hw
    have hqq := hall q hq
    by_contra hne
    rw [← hqe] at hne
    simp only [if_pos hne] at hqq
    exact Option.noConfusion hqq
  · intro hall q hq
    have hmem := enum_snd_mem hq
    have := hall q.2 hmem
    simp [this]

theorem check_witness_anchors_ok_iff (comb : Nat → Nat → Nat → Nat)
    (blank : Nat) (D : Nat) (cur_root : Nat) (ws : List WitnessRow)
    (txs : List (WalletTx × List (IncrementalWitness Nat))) (h : Int) :
    check_witness_anchors comb blank D cur_root ws txs h = .ok () ↔
      ((∀ w ∈ ws, w.witness.root comb blank D = cur_root) ∧
        ∀ p ∈ txs, ∀ w ∈ p.2, w.root comb blank D = cur_root) := by
  constructor
  · intro hok
    rcases hfind : ws.find?
        (fun row => !(row.witness.root comb blank D == cur_root)) with _ | row
    · rcases hsome : txs.findSome?
          (new_witness_mismatch comb blank D cur_root h) with _ | e
      · constructor
        · intro w hw
          have := (List.find?_eq_none.mp hfind) w hw
          simpa using this
        · intro p hp
          have := (List.findSome?_eq_none_iff.mp hsome) p hp
          exact (new_witness_mismatch_none_iff comb blank D cur_root h p).mp
            this
      · exfalso
        rw [check_witness_anchors, hfind, hsome] at hok
        exact Except.noConfusion hok
    · exfalso
      rw [check_witness_anchors, hfind] at hok
      exact Except.noConfusion hok
  · rintro ⟨hex, hnew⟩
    have hfind : ws.find?
        (fun row => !(row.witness.root comb blank D == cur_root)) = none :=
      List.find?_eq_none.mpr (fun w hw => by simp [hex w hw])
    have hsome : txs.findSome?
        (new_witness_mismatch comb blank D cur_root h) = none :=
      List.findSome?_eq_none_iff.mpr (fun p hp =>
        (new_witness_mismatch_none_iff comb blank D cur_root h p).mpr
          (hnew p hp))
    rw [check_witness_anchors, hfind, hsome]

theorem new_witness_mismatch_some_shape (comb : Nat → Nat → Nat → Nat)
    (blank : Nat) (D : Nat) (cur_root : Nat) (h : Int)
    (p : WalletTx × List (IncrementalWitness Nat)) (e : ErrorKind)
    (he : new_witness_mismatch comb blank D cur_root h p = some e) :
    ∃ o txid r, e = .InvalidNewWitnessAnchor o txid h r := by
  rw [new_witness_mismatch] at he
  obtain ⟨l₁, a, l₂, -, hfa, -⟩ := List.findSome?_eq_some_iff.mp he
  by_cases hne : a.2.root comb blank D ≠ cur_root
  · simp only [if_pos hne] at hfa
    exact ⟨_, _, _, (Option.some.inj hfa).symm⟩
  · simp only [if_neg hne] at hfa
    exact Option.noConfusion hfa

theorem check_witness_anchors_error_shape (comb : Nat → Nat → Nat → Nat)
    (blank : Nat) (D : Nat) (cur_root : Nat) (ws : List WitnessRow)
    (txs : List (WalletTx × List (IncrementalWitness Nat))) (h : Int)
    (e : ErrorKind)
    (he : check_witness_anchors comb blank D cur_root ws txs h = .error e) :
    (∃ id_note, e = .InvalidWitnessAnchor id_note h) ∨
      ∃ o txid r, e = .InvalidNewWitnessAnchor o txid h r := by
  rcases hfind : ws.find?
      (fun row => !(row.witness.root comb blank D == cur_root)) with _ | row
  · rcases hsome : txs.findSome?
        (new_witness_mismatch comb blank D cur_root h) with _ | e'
    · rw [check_witness_anchors, hfind, hsome] at he
      exact Except.noConfusion he
    · rw [check_witness_anchors, hfind, hsome] at he
      obtain ⟨l₁, a, l₂, -, hfa, -⟩ := List.findSome?_eq_some_iff.mp hsome
      have := new_witness_mismatch_some_shape comb blank D cur_root h a e'
        hfa
      right
      rwa [Except.error.inj he] at this
  · rw [check_witness_anchors, hfind] at he
    exact Or.inl ⟨row.id_note, (Except.error.inj he).symm⟩

theorem scan_loop_propagates_check_error (C : ExtCrypto)
    (comb : Nat → Nat → Nat → Nat) (blank : Nat) (D : Nat)
    (extfvks : List Nat) (block : CompactBlock) (rows : List CompactBlock)
    (last_height : Int) (tree : CommitmentTree Nat)
    (witnesses : List WitnessRow) (nullifiers : List (Bytes × Nat))
    (db : DataDB) (tree1 : CommitmentTree Nat)
    (ew1 : List (IncrementalWitness Nat))
    (txs : List (WalletTx × List (IncrementalWitness Nat))) (e : ErrorKind)
    (hseq : block.height = last_height + 1)
    (hscan : scan_block C block extfvks nullifiers tree
      (witnesses.map (·.witness)) = (tree1, ew1, txs))
    (hchk : check_witness_anchors comb blank D (tree1.root comb blank D)
      (((witnesses.map (·.id_note)).zip ew1).map
        (fun p => WitnessRow.mk p.1 p.2)) txs block.height = .error e) :
    scan_loop C comb blank D extfvks (block :: rows) last_height tree
      witnesses nullifiers db = .error e := by
  rw [scan_loop, if_neg (fun hne => hne hseq), hscan]
  simp only [hchk]

/-- Claim C2: after any stream of commitments appended identically to the
accumulator and to a live witness (created from an earlier accumulator
state, as block scanning does), the witness's recomputed root equals the
accumulator's root; the post-block debug check accepts exactly when every
live and new witness root equals the accumulator root, a failing check
carries an `InvalidWitnessAnchor` or `InvalidNewWitnessAnchor` error, and a
failing check makes the scan loop abort with exactly that error. -/
theorem scan_witness_root_parity_and_abort :
    (∀ (A : Type) (comb : Nat → A → A → A) (blank : A) (D : Nat)
        (t0 : CommitmentTree A) (ns : List A),
        t0.leaves ≠ [] → (t0.appendList ns).size ≤ 2 ^ D →
        ((IncrementalWitness.from_tree t0).appendList ns).root comb blank D =
          (t0.appendList ns).root comb blank D) ∧
    (∀ (comb : Nat → Nat → Nat → Nat) (blank : Nat) (D cur_root : Nat)
        (ws : List WitnessRow)
        (txs : List (WalletTx × List (IncrementalWitness Nat))) (h : Int),
        check_witness_anchors comb blank D cur_root ws txs h = .ok () ↔
          ((∀ w ∈ ws, w.witness.root comb blank D = cur_root) ∧
            ∀ p ∈ txs, ∀ w ∈ p.2, w.root comb blank D = cur_root)) ∧
    (∀ (comb : Nat → Nat → Nat → Nat) (blank : Nat) (D cur_root : Nat)
        (ws : List WitnessRow)
        (txs : List (WalletTx × List (IncrementalWitness Nat))) (h : Int)
        (e : ErrorKind),
        check_witness_anchors comb blank D cur_root ws txs h = .error e →
          (∃ id_note, e = .InvalidWitnessAnchor id_note h) ∨
            ∃ o txid r, e = .InvalidNewWitnessAnchor o txid h r) ∧
    (∀ (C : ExtCrypto) (comb : Nat → Nat → Nat → Nat) (blank : Nat)
        (D : Nat) (extfvks : List Nat) (block : CompactBlock)
        (rows : List CompactBlock) (last_height : Int)
        (tree tree1 : CommitmentTree Nat) (witnesses : List WitnessRow)
        (nullifiers : List (Bytes × Nat)) (db : DataDB)
        (ew1 : List (IncrementalWitness Nat))
        (txs : List (WalletTx × List (IncrementalWitness Nat)))
        (e : ErrorKind),
        block.height = last_height + 1 →
        scan_block C block extfvks nullifiers tree
          (witnesses.map (·.witness)) = (tree1, ew1, txs) →
        check_witness_anchors comb blank D (tree1.root comb blank D)
          (((witnesses.map (·.id_note)).zip ew1).map
            (fun p => WitnessRow.mk p.1 p.2)) txs block.height = .error e →
        scan_loop C comb blank D extfvks (block :: rows) last_height tree
          witnesses nullifiers db = .error e) := by
  refine ⟨?_, ?_, ?_, ?_⟩
  · intro A comb blank D t0 ns hne hsz
    obtain ⟨hwl, hwp⟩ :=
      witness_appendList_leaves ns (IncrementalWitness.from_tree t0)
    have htl := tree_appendList_leaves ns t0
    apply witness_root_eq_tree_root
    · rw [hwl, htl]
      rfl
    · rw [hwp]
      have h1 : t0.leaves.length ≥ 1 := by
        cases h : t0.leaves with
        | nil => exact absurd h hne
        | cons a l => simp [h]
      have h2 : (t0.appendList ns).size =
          t0.leaves.length + ns.length := by
        rw [CommitmentTree.size, htl, List.length_append]
      show t0.leaves.length - 1 < 2 ^ D
      omega
  · exact check_witness_anchors_ok_iff
  · intro comb blank D cur_root ws txs h e
    exact check_witness_anchors_error_shape comb blank D cur_root ws txs h e
  · intro C comb blank D extfvks block rows last_height tree tree1 witnesses
      nullifiers db ew1 txs e hseq hscan hchk
    exact scan_loop_propagates_check_error C comb blank D extfvks block rows
      last_height tree witnesses nullifiers db tree1 ew1 txs e hseq hscan
      hchk

/-- Witness for `scan_witness_root_parity_and_abort` at concrete inputs. -/
theorem scan_witness_root_parity_and_abort_witness :
    (((IncrementalWitness.from_tree (⟨[5]⟩ : CommitmentTree Nat)).appendList
        [7]).root (fun d a b => d + a + b) 0 2 =
      ((⟨[5]⟩ : CommitmentTree Nat).appendList [7]).root
        (fun d a b => d + a + b) 0 2) ∧
    ((∃ id_note,
          (ErrorKind.InvalidWitnessAnchor 3 5) =
            .InvalidWitnessAnchor id_note 5) ∨
        ∃ o txid r,
          (ErrorKind.InvalidWitnessAnchor 3 5) =
            .InvalidNewWitnessAnchor o txid 5 r) ∧
    scan_loop rigidCrypto (fun d a b => d + a + b) 0 1 []
        [⟨1, [], [], 0, []⟩] 0 ⟨[]⟩ [⟨3, ⟨0, [9]⟩⟩] [] ⟨[], [], [], [], 0, 0⟩ =
      .error (.InvalidWitnessAnchor 3 1) := by
  refine ⟨?_, ?_, ?_⟩
  · exact scan_witness_root_parity_and_abort.1 Nat (fun d a b => d + a + b)
      0 2 ⟨[5]⟩ [7] (by decide) (by decide)
  · exact scan_witness_root_parity_and_abort.2.2.1 (fun d a b => d + a + b)
      0 1 0 [⟨3, ⟨0, [9]⟩⟩] [] 5 (.InvalidWitnessAnchor 3 5) (by rfl)
  · exact scan_witness_root_parity_and_abort.2.2.2 rigidCrypto
      (fun d a b => d + a + b) 0 1 [] ⟨1, [], [], 0, []⟩ [] 0 ⟨[]⟩ ⟨[]⟩
      [⟨3, ⟨0, [9]⟩⟩] [] ⟨[], [], [], [], 0, 0⟩ [⟨0, [9]⟩] []
      (.InvalidWitnessAnchor 3 1) (by decide) (by rfl) (by rfl)

/-! ## Height sequencing (C5) -/

/-- Claim C5: with last scanned height `H`, scanning a cached block of height
`H + 2` next fails immediately with `InvalidHeight` naming expected `H + 1`
and actual `H + 2` (whatever blocks follow — nothing is auto-skipped), and
the same non-sequential-height rule makes `validate_combined_chain` fail
with the expected and actual heights. -/
theorem scan_requires_sequential_heights :
    (∀ (C : ExtCrypto) (comb : Nat → Nat → Nat → Nat) (blank : Nat)
        (D : Nat) (extfvks : List Nat) (blk : CompactBlock)
        (rest : List CompactBlock) (db : DataDB) (H : Int),
        last_scanned_height db = H → blk.height = H + 2 →
        scan_cached_blocks C comb blank D extfvks (blk :: rest) db =
          .error (.InvalidHeight (H + 1) (H + 2))) ∧
    (∀ (r b : CompactBlock) (rest : List CompactBlock)
        (data_blocks : List (Int × Bytes)),
        b.height ≠ r.height - 1 →
        validate_combined_chain (r :: b :: rest) data_blocks =
          .error (.InvalidHeight (r.height - 1) b.height)) := by
  constructor
  · intro C comb blank D extfvks blk rest db H hlast hblk
    rw [scan_cached_blocks, hlast, scan_loop, if_pos (by omega), hblk]
  · intro r b rest data_blocks hb
    show validate_go data_blocks
      (((data_blocks.map (·.1)).max?).getD (SAPLING_ACTIVATION_HEIGHT - 1))
      r.height r.prev_hash (b :: rest) = _
    rw [validate_go, if_pos hb]

/-- Witness for `scan_requires_sequential_heights` at concrete inputs: an
empty wallet database (last scanned height `SAPLING_ACTIVATION_HEIGHT - 1 =
279999`) offered the cached block of height `280001` next, and a descending
cache walk `[height 12, height 10]`. -/
theorem scan_requires_sequential_heights_witness :
    scan_cached_blocks rigidCrypto (fun _ a b => a + b) 0 32 []
        [⟨280001, [], [], 0, []⟩] ⟨[], [], [], [], 0, 0⟩ =
      .error (.InvalidHeight 280000 280001) ∧
    validate_combined_chain [⟨12, [2], [1], 0, []⟩, ⟨10, [0], [], 0, []⟩]
        [] = .error (.InvalidHeight 11 10) := by
  constructor
  · exact scan_requires_sequential_heights.1 rigidCrypto (fun _ a b => a + b)
      0 32 [] ⟨280001, [], [], 0, []⟩ [] ⟨[], [], [], [], 0, 0⟩ 279999
      (by decide) (by decide)
  · exact scan_requires_sequential_heights.2 ⟨12, [2], [1], 0, []⟩
      ⟨10, [0], [], 0, []⟩ [] [] (by decide)

/-! ## Chain validation (C4) -/

theorem validate_go_spec (data_blocks : List (Int × Bytes)) (lsh : Int) :
    ∀ (rest : List CompactBlock) (h : Int) (prev : Bytes),
      heights_sequential_desc h rest = true →
      ((∀ hb, first_link_break prev rest = some hb →
          validate_go data_blocks lsh h prev rest =
            .error (.InvalidChain hb .PrevHashMismatch)) ∧
        (first_link_break prev rest = none →
          (hash_at data_blocks lsh = none →
            validate_go data_blocks lsh h prev rest = .error .Database) ∧
          (∀ hs, hash_at data_blocks lsh = some hs →
            (hs ≠ lowest_prev_from prev rest →
              validate_go data_blocks lsh h prev rest =
                .error (.InvalidChain lsh .PrevHashMismatch)) ∧
            (hs = lowest_prev_from prev rest →
              validate_go data_blocks lsh h prev rest = .ok ())))) := by
  intro rest
  induction rest with
  | nil =>
      intro h prev _
      constructor
      · intro hb hfb
        rw [first_link_break] at hfb
        exact Option.noConfusion hfb
      · intro _
        refine ⟨?_, ?_⟩
        · intro hnone
          rw [validate_go]
          simp only [hnone]
        · intro hs hsome
          rw [validate_go]
          simp only [hsome, lowest_prev_from]
          refine ⟨fun hne => ?_, fun heq => ?_⟩
          · rw [if_pos hne]
          · rw [if_neg (fun hne => hne heq)]
  | cons r rest ih =>
      intro h prev hseq
      rw [heights_sequential_desc, Bool.and_eq_true] at hseq
      obtain ⟨hh, hseq2⟩ := hseq
      have hh' : r.height = h - 1 := by simpa using hh
      constructor
      · intro hb hfb
        rw [validate_go, if_neg (fun hne => hne hh')]
        by_cases hhash : r.hash ≠ prev
        · rw [if_pos hhash]
          rw [first_link_break, if_pos hhash] at hfb
          rw [Option.some.inj hfb]
        · rw [if_neg hhash]
          rw [first_link_break, if_neg hhash] at hfb
          exact (ih r.height r.prev_hash hseq2).1 hb hfb
      · intro hfb
        by_cases hhash : r.hash ≠ prev
        · rw [first_link_break, if_pos hhash] at hfb
          exact Option.noConfusion hfb
        · rw [first_link_break, if_neg hhash] at hfb
          rw [validate_go, if_neg (fun hne => hne hh'), if_neg hhash,
            lowest_prev_from]
          exact (ih r.height r.prev_hash hseq2).2 hfb

/-- Claim C4: `validate_combined_chain` walks the cached run downward from the
highest block; with sequential heights, it fails with `InvalidChain` naming
the height of the first block whose hash differs from the next-higher
block's declared previous-hash; after exhausting the run it fails the same
way, naming the last-scanned height, when the lowest block's previous-hash
differs from the hash persisted for the last scanned height; and when every
link holds (including the link into persisted state) it returns `Ok(())`. -/
theorem validate_combined_chain_spec :
    ∀ (data_blocks : List (Int × Bytes)) (r : CompactBlock)
      (rest : List CompactBlock),
      heights_sequential_desc r.height rest = true →
      ((∀ hb, first_link_break r.prev_hash rest = some hb →
          validate_combined_chain (r :: rest) data_blocks =
            .error (.InvalidChain hb .PrevHashMismatch)) ∧
        (first_link_break r.prev_hash rest = none →
          ∀ hs, hash_at data_blocks (data_last_scanned data_blocks) =
              some hs →
            (hs ≠ lowest_prev_from r.prev_hash rest →
              validate_combined_chain (r :: rest) data_blocks =
                .error (.InvalidChain (data_last_scanned data_blocks)
                  .PrevHashMismatch)) ∧
            (hs = lowest_prev_from r.prev_hash rest →
              validate_combined_chain (r :: rest) data_blocks = .ok ()))) := by
  intro data_blocks r rest hseq
  have hval : validate_combined_chain (r :: rest) data_blocks =
      validate_go data_blocks (data_last_scanned data_blocks) r.height
        r.prev_hash rest := rfl
  constructor
  · intro hb hfb
    rw [hval]
    exact (validate_go_spec data_blocks (data_last_scanned data_blocks) rest
      r.height r.prev_hash hseq).1 hb hfb
  · intro hfb hs hhs
    have h2 := ((validate_go_spec data_blocks (data_last_scanned data_blocks)
      rest r.height r.prev_hash hseq).2 hfb).2 hs hhs
    rw [hval]
    exact h2

/-- Witness for `validate_combined_chain_spec`: blocks 12, 11, 10 above a
persisted block of height 9 whose hash is `[9]`; with intact linkage the
chain validates; with block 11's hash changed the walk fails naming height
11. -/
theorem validate_combined_chain_spec_witness :
    (validate_combined_chain
      [⟨12, [12], [11], 0, []⟩, ⟨11, [11], [10], 0, []⟩,
       ⟨10, [10], [9], 0, []⟩] [(9, [9])] = .ok ()) ∧
    (validate_combined_chain
      [⟨12, [12], [11], 0, []⟩, ⟨11, [7], [10], 0, []⟩,
       ⟨10, [10], [9], 0, []⟩] [(9, [9])] =
      .error (.InvalidChain 11 .PrevHashMismatch)) := by
  constructor
  · exact (((validate_combined_chain_spec [(9, [9])] ⟨12, [12], [11], 0, []⟩
      [⟨11, [11], [10], 0, []⟩, ⟨10, [10], [9], 0, []⟩] (by decide)).2
      (by decide) [9] (by decide)).2 (by decide))
  · exact ((validate_combined_chain_spec [(9, [9])] ⟨12, [12], [11], 0, []⟩
      [⟨11, [7], [10], 0, []⟩, ⟨10, [10], [9], 0, []⟩] (by decide)).1
      11 (by decide))

/-! ## Rewind (C6) -/

theorem filter_idem {α : Type} (p : α → Bool) (l : List α) :
    (l.filter p).filter p = l.filter p := by
  rw [List.filter_filter]
  congr 1
  funext a
  rw [Bool.and_self]

theorem unmine_idem (h : Int) (t : TxRow) :
    (fun t : TxRow =>
      match t.block with
      | some b =>
          if b > h then { t with block := none, tx_index := none } else t
      | none => t)
    ((fun t : TxRow =>
      match t.block with
      | some b =>
          if b > h then { t with block := none, tx_index := none } else t
      | none => t) t) =
    (fun t : TxRow =>
      match t.block with
      | some b =>
          if b > h then { t with block := none, tx_index := none } else t
      | none => t) t := by
  rcases t with ⟨id_tx, txid, block, tx_index, expiry⟩
  cases block with
  | none => rfl
  | some b =>
      by_cases hb : b > h
      · simp [hb]
      · simp [hb]

/-- Claim C6: `rewind_to_height` with a target at or above the last scanned
height leaves the whole persisted state (blocks, witnesses, transactions,
notes) unchanged, and rewinding twice to the same target is the same as
rewinding once. -/
theorem rewind_to_height_idempotent :
    (∀ (db : DataDB) (h : Int), h ≥ last_scanned_height db →
        rewind_to_height db h = db) ∧
    (∀ (db : DataDB) (h : Int),
        rewind_to_height (rewind_to_height db h) h = rewind_to_height db h) := by
  have hnoop : ∀ (db : DataDB) (h : Int), h ≥ last_scanned_height db →
      rewind_to_height db h = db := by
    intro db h hge
    simp only [rewind_to_height]
    rw [if_pos hge]
  refine ⟨hnoop, ?_⟩
  intro db h
  by_cases hge : h ≥ last_scanned_height db
  · rw [hnoop db h hge, hnoop db h hge]
  · have hdb' : rewind_to_height db h =
        { db with
          witnesses := db.witnesses.filter (fun w => ¬ w.block > h),
          txs := db.txs.map (fun t =>
            match t.block with
            | some b =>
                if b > h then { t with block := none, tx_index := none }
                else t
            | none => t),
          blocks := db.blocks.filter (fun b => ¬ b.height > h) } := by
      simp only [rewind_to_height]
      rw [if_neg hge]
    rw [hdb']
    by_cases hge' : h ≥ last_scanned_height
        { db with
          witnesses := db.witnesses.filter (fun w => ¬ w.block > h),
          txs := db.txs.map (fun t =>
            match t.block with
            | some b =>
                if b > h then { t with block := none, tx_index := none }
                else t
            | none => t),
          blocks := db.blocks.filter (fun b => ¬ b.height > h) }
    · exact hnoop _ h hge'
    · simp only [rewind_to_height]
      rw [if_neg hge']
      simp only [DataDB.mk.injEq]
      refine ⟨?_, ?_, trivial, ?_, trivial, trivial⟩
      · exact filter_idem _ _
      · rw [List.map_map]
        apply List.map_congr_left
        intro t _
        exact unmine_idem h t
      · exact filter_idem _ _

/-- Witness for `rewind_to_height_idempotent`: a one-block database rewound
to a target above its last scanned height, and rewound twice to a target
below it. -/
theorem rewind_to_height_idempotent_witness :
    (rewind_to_height
        ⟨[⟨280000, 7, ⟨[4]⟩⟩], [⟨0, [1], some 280000, some 0, none⟩], [],
          [⟨0, 280000, ⟨0, [4]⟩⟩], 1, 1⟩ 280005 =
      ⟨[⟨280000, 7, ⟨[4]⟩⟩], [⟨0, [1], some 280000, some 0, none⟩], [],
        [⟨0, 280000, ⟨0, [4]⟩⟩], 1, 1⟩) ∧
    (rewind_to_height
        (rewind_to_height
          ⟨[⟨280000, 7, ⟨[4]⟩⟩], [⟨0, [1], some 280000, some 0, none⟩], [],
            [⟨0, 280000, ⟨0, [4]⟩⟩], 1, 1⟩ 279995) 279995 =
      rewind_to_height
        ⟨[⟨280000, 7, ⟨[4]⟩⟩], [⟨0, [1], some 280000, some 0, none⟩], [],
          [⟨0, 280000, ⟨0, [4]⟩⟩], 1, 1⟩ 279995) := by
  constructor
  · exact rewind_to_height_idempotent.1
      ⟨[⟨280000, 7, ⟨[4]⟩⟩], [⟨0, [1], some 280000, some 0, none⟩], [],
        [⟨0, 280000, ⟨0, [4]⟩⟩], 1, 1⟩ 280005 (by decide)
  · exact rewind_to_height_idempotent.2
      ⟨[⟨280000, 7, ⟨[4]⟩⟩], [⟨0, [1], some 280000, some 0, none⟩], [],
        [⟨0, 280000, ⟨0, [4]⟩⟩], 1, 1⟩ 279995

/-! ## Corrupt outputs (C1) -/

/-- Claim C1 (failing input): an output whose `cmu` decodes but whose `epk`
encoding is malformed is skipped — yet, contrary to the claim (and to
`scan_output`'s own doc comment), its commitment is *not* appended to the
tree or the witnesses: `scan_output` returns before the appends.  Scanning
of the remaining outputs does continue: scanning a block whose transaction
carries the malformed-`epk` output (commitment 1) followed by a well-formed
output (commitment 2) yields a tree holding only commitment 2. -/
theorem corrupt_output_dropped_from_tree :
    (scan_output rigidCrypto 0 malformedEpkOutput [] []
        (CommitmentTree.new Nat) [] [] =
      (CommitmentTree.new Nat, [], [], none)) ∧
    scan_block rigidCrypto corruptOutputBlock [] []
        (CommitmentTree.new Nat) [] = (⟨[2]⟩, [], []) := by decide

/-! ## Nullifier matching (C3) -/

/-- Claim C3 (counterexample): within one block's scan the unspent-nullifier
set is a fixed snapshot, so a later spend in the same block *can* match the
same nullifier again: a block with two transactions both spending nullifier
`[1]` yields two matched spend events for that one nullifier. -/
theorem same_block_nullifier_rematch :
    ((scan_block rigidCrypto doubleSpendBlock [] [([1], 0)]
        (CommitmentTree.new Nat) []).2.2).map
        (fun p => p.1.shielded_spends) =
      [[⟨0, [1], 0⟩], [⟨0, [1], 0⟩]] := by decide

/-- Claim C3 (amended): every spend whose nullifier is in the
unspent-nullifier set yields a recorded spend event carrying the spend's
index, its nullifier and the owning account (that of the first matching
entry); and the matched nullifiers are removed from the active set when the
transaction is persisted — so spends in subsequently scanned blocks cannot
match them — rather than during the same block's scan. -/
theorem spend_events_and_deferred_removal :
    (∀ (nullifiers : List (Bytes × Nat)) (spends : List (Nat × CompactSpend))
        (s : WalletShieldedSpend),
        s ∈ scan_tx_spends nullifiers spends ↔
          ∃ p ∈ spends, p.1 = s.index ∧ p.2.nf = s.nf ∧
            find_nf_account nullifiers s.nf = some s.account) ∧
    (∀ (spends : List WalletShieldedSpend) (nfs : List (Bytes × Nat))
        (p : Bytes × Nat),
        p ∈ remove_spent_nullifiers spends nfs ↔
          p ∈ nfs ∧ ∀ s ∈ spends, s.nf ≠ p.1) := by
  constructor
  · intro nullifiers spends s
    rw [scan_tx_spends, List.mem_filterMap]
    constructor
    · rintro ⟨a, ha, hfa⟩
      rcases hacc : find_nf_account nullifiers a.2.nf with _ | acc
      · rw [hacc] at hfa
        exact Option.noConfusion hfa
      · rw [hacc] at hfa
        have hs := Option.some.inj hfa
        refine ⟨a, ha, ?_, ?_, ?_⟩
        · rw [← hs]
        · rw [← hs]
        · rw [← hs]
          exact hacc
    · rintro ⟨a, ha, hidx, hnf, hacc⟩
      refine ⟨a, ha, ?_⟩
      rw [hnf, hacc]
      cases s
      simp only [Option.map_some]
      simp_all
  · intro spends nfs p
    rw [remove_spent_nullifiers, List.mem_filter]
    constructor
    · rintro ⟨hmem, hnone⟩
      refine ⟨hmem, ?_⟩
      intro s hs
      have := List.find?_eq_none.mp (Option.isNone_iff_eq_none.mp hnone) s hs
      simpa using this
    · rintro ⟨hmem, hall⟩
      refine ⟨hmem, ?_⟩
      rw [Option.isNone_iff_eq_none, List.find?_eq_none]
      intro s hs
      simpa using hall s hs

/-! ## Trial decryption order, change detection (C10, C7) -/

theorem scan_output_find_spec (C : ExtCrypto) (cmu epk : Nat) (ct : Bytes)
    (spent : List Nat) (idx : Nat) :
    ∀ (ivks : List Nat) (start : Nat) (out : WalletShieldedOutput),
      scan_output_find C cmu epk ct spent idx start ivks = some out →
      ∃ j, j < ivks.length ∧ out.account = start + j ∧
        (trial_decrypt C cmu epk ct (ivks.getD j 0)).isSome ∧
        (∀ i < j, (trial_decrypt C cmu epk ct (ivks.getD i 0)).isNone) ∧
        out.index = idx ∧ out.cmu = cmu ∧ out.epk = epk ∧
        out.is_change = spent.contains out.account := by
  intro ivks
  induction ivks with
  | nil =>
      intro start out h
      rw [scan_output_find] at h
      exact Option.noConfusion h
  | cons ivk rest ih =>
      intro start out h
      rw [scan_output_find] at h
      rcases htd : trial_decrypt C cmu epk ct ivk with _ | pr
      · rw [htd] at h
        obtain ⟨j, hj, hacc, hsome, hnone, hrest⟩ := ih (start + 1) out h
        refine ⟨j + 1, by simpa using hj, by omega, ?_, ?_, hrest⟩
        · simpa using hsome
        · intro i hi
          cases i with
          | zero => simpa [trial_decrypt] using congrArg Option.isNone htd
          | succ i' =>
              have := hnone i' (by omega)
              simpa using this
      · rw [htd] at h
        have hout := (Option.some.inj h).symm
        subst hout
        refine ⟨0, by simp, by simp, by simp [htd], ?_, by simp, by simp,
          by simp, by simp⟩
        intro i hi
        omega

theorem scan_output_some_spec (C : ExtCrypto) (index : Nat)
    (output : CompactOutput) (ivks spent : List Nat)
    (tree : CommitmentTree Nat)
    (ew nw : List (IncrementalWitness Nat)) (tree' : CommitmentTree Nat)
    (ew' nw' : List (IncrementalWitness Nat))
    (out : WalletShieldedOutput) (w : IncrementalWitness Nat)
    (h : scan_output C index output ivks spent tree ew nw =
      (tree', ew', nw', some (out, w))) :
    ∃ repr cmu epk,
      read_le_32 output.cmu = some repr ∧ fr_from_repr repr = some cmu ∧
      C.decode_epk output.epk = some epk ∧ out.cmu = cmu ∧ out.epk = epk ∧
      out.index = index ∧ out.account < ivks.length ∧
      (trial_decrypt C cmu epk output.ciphertext
        (ivks.getD out.account 0)).isSome ∧
      (∀ a < out.account,
        (trial_decrypt C cmu epk output.ciphertext (ivks.getD a 0)).isNone) ∧
      out.is_change = spent.contains out.account := by
  rw [scan_output] at h
  rcases hre : read_le_32 output.cmu with _ | repr
  · rw [hre] at h
    simp at h
  · rw [hre] at h
    dsimp only at h
    rcases hfr : fr_from_repr repr with _ | cmu
    · rw [hfr] at h
      simp at h
    · rw [hfr] at h
      dsimp only at h
      rcases hdk : C.decode_epk output.epk with _ | epk
      · rw [hdk] at h
        simp at h
      · rw [hdk] at h
        dsimp only at h
        simp only [Prod.mk.injEq] at h
        obtain ⟨-, -, -, hfind⟩ := h
        rcases hof : scan_output_find C cmu epk output.ciphertext spent
            index 0 ivks with _ | out0
        · rw [hof] at hfind
          exact Option.noConfusion hfind
        · rw [hof] at hfind
          simp only [Option.map_some', Option.some.injEq, Prod.mk.injEq]
            at hfind
          obtain ⟨hout, -⟩ := hfind
          obtain ⟨j, hj, hacc, hsome, hnone, hidx, hcmu, hepk, hic⟩ :=
            scan_output_find_spec C cmu epk output.ciphertext spent index
              ivks 0 out0 hof
          rw [← hout]
          have hacc0 : out0.account = j := by omega
          exact ⟨repr, cmu, epk, rfl, hfr, rfl, hcmu, hepk, hidx,
            by omega, by rwa [hacc0], by rw [hacc0]; exact hnone, hic⟩

/-- Claim C10: when `scan_output` discovers an output, the owning account is
the lowest account index whose viewing key decrypts it: keys are tried in
ascending account order and the first success wins, so the winner's key
decrypts while every lower-indexed key fails — on identical inputs the
attribution is therefore always the same. -/
theorem scan_output_lowest_account_wins :
    ∀ (C : ExtCrypto) (index : Nat) (output : CompactOutput)
      (ivks spent : List Nat) (tree tree' : CommitmentTree Nat)
      (ew nw ew' nw' : List (IncrementalWitness Nat))
      (out : WalletShieldedOutput) (w : IncrementalWitness Nat),
      scan_output C index output ivks spent tree ew nw =
        (tree', ew', nw', some (out, w)) →
      ∃ cmu epk,
        C.decode_epk output.epk = some epk ∧ out.cmu = cmu ∧
        out.account < ivks.length ∧
        (trial_decrypt C cmu epk output.ciphertext
          (ivks.getD out.account 0)).isSome ∧
        ∀ a < out.account,
          (trial_decrypt C cmu epk output.ciphertext (ivks.getD a 0)).isNone := by
  intro C index output ivks spent tree tree' ew nw ew' nw' out w h
  obtain ⟨repr, cmu, epk, -, -, hdk, hcmu, -, -, hlen, hsome, hnone, -⟩ :=
    scan_output_some_spec C index output ivks spent tree ew nw tree' ew' nw'
      out w h
  exact ⟨cmu, epk, hdk, hcmu, hlen, hsome, hnone⟩

/-- Witness for `scan_output_lowest_account_wins`: two tracked keys, a
decryption that succeeds for every key — the discovered output is
attributed to account 0, the lowest. -/
theorem scan_output_lowest_account_wins_witness :
    ∃ cmu epk,
      permissiveCrypto.decode_epk wellFormedOutput.epk = some epk ∧
      (scan_output permissiveCrypto 0 wellFormedOutput [0, 1] []
          (CommitmentTree.new Nat) [] [] |>.2.2.2.get (by decide)).1.cmu =
        cmu ∧
      ((scan_output permissiveCrypto 0 wellFormedOutput [0, 1] []
          (CommitmentTree.new Nat) [] [] |>.2.2.2.get (by decide)).1.account <
        ([0, 1] : List Nat).length) ∧
      (trial_decrypt permissiveCrypto cmu epk wellFormedOutput.ciphertext
        (([0, 1] : List Nat).getD
          (scan_output permissiveCrypto 0 wellFormedOutput [0, 1] []
              (CommitmentTree.new Nat) [] [] |>.2.2.2.get
            (by decide)).1.account 0)).isSome ∧
      ∀ a < (scan_output permissiveCrypto 0 wellFormedOutput [0, 1] []
          (CommitmentTree.new Nat) [] [] |>.2.2.2.get (by decide)).1.account,
        (trial_decrypt permissiveCrypto cmu epk wellFormedOutput.ciphertext
          (([0, 1] : List Nat).getD a 0)).isNone := by
  exact scan_output_lowest_account_wins permissiveCrypto 0 wellFormedOutput
    [0, 1] [] (CommitmentTree.new Nat) _ [] [] _ _ _ _ (by rfl)

theorem scan_tx_outputs_is_change (C : ExtCrypto) (ivks spent : List Nat) :
    ∀ (outs : List (Nat × CompactOutput)) (tree : CommitmentTree Nat)
      (ew nw : List (IncrementalWitness Nat))
      (acc : List WalletShieldedOutput),
      (∀ o ∈ acc, o.is_change = spent.contains o.account) →
      ∀ o ∈ (scan_tx_outputs C ivks spent outs tree ew nw acc).2.2.2,
        o.is_change = spent.contains o.account := by
  intro outs
  induction outs with
  | nil =>
      intro tree ew nw acc hacc o ho
      rw [scan_tx_outputs] at ho
      exact hacc o ho
  | cons p rest ih =>
      intro tree ew nw acc hacc o ho
      rw [scan_tx_outputs] at ho
      rcases hso : scan_output C p.1 p.2 ivks spent tree ew nw with
        ⟨tree1, ew1, nw1, found⟩
      rcases found with _ | ⟨out, w⟩
      · rw [hso] at ho
        exact ih tree1 ew1 nw1 acc hacc o ho
      · rw [hso] at ho
        refine ih tree1 ew1 (nw1 ++ [w]) (acc ++ [out]) ?_ o ho
        intro o' ho'
        rcases List.mem_append.mp ho' with hmem | hmem
        · exact hacc o' hmem
        · obtain ⟨-, -, -, -, -, -, -, -, -, -, -, -, hic⟩ :=
            scan_output_some_spec C p.1 p.2 ivks spent tree ew nw tree1 ew1
              nw1 out w hso
          rw [List.mem_singleton.mp hmem]
          exact hic

theorem scan_block_go_is_change (C : ExtCrypto) (ivks : List Nat)
    (nullifiers : List (Bytes × Nat)) :
    ∀ (txs : List CompactTx) (tree : CommitmentTree Nat)
      (ew : List (IncrementalWitness Nat))
      (acc : List (WalletTx × List (IncrementalWitness Nat))),
      (∀ p ∈ acc, ∀ out ∈ p.1.shielded_outputs,
        out.is_change =
          (p.1.shielded_spends.map (·.account)).contains out.account) →
      ∀ p ∈ (scan_block_go C ivks nullifiers txs tree ew acc).2.2,
        ∀ out ∈ p.1.shielded_outputs,
          out.is_change =
            (p.1.shielded_spends.map (·.account)).contains out.account := by
  intro txs
  induction txs with
  | nil =>
      intro tree ew acc hacc p hp
      rw [scan_block_go] at hp
      exact hacc p hp
  | cons tx rest ih =>
      intro tree ew acc hacc p hp
      rw [scan_block_go] at hp
      rcases hsto : scan_tx_outputs C ivks
          ((scan_tx_spends nullifiers tx.spends.enum).map (·.account))
          tx.outputs.enum tree ew [] [] with ⟨tree1, ew1, nws, outs⟩
      rw [hsto] at hp
      dsimp only at hp
      by_cases hcond :
          (!((scan_tx_spends nullifiers tx.spends.enum).isEmpty &&
            outs.isEmpty)) = true
      · rw [if_pos hcond] at hp
        refine ih tree1 ew1 _ ?_ p hp
        intro q hq
        rcases List.mem_append.mp hq with hmem | hmem
        · exact hacc q hmem
        · rw [List.mem_singleton.mp hmem]
          intro out hout
          have hone := scan_tx_outputs_is_change C ivks
            ((scan_tx_spends nullifiers tx.spends.enum).map (·.account))
            tx.outputs.enum tree ew [] [] (by intro o ho; cases ho) out
          rw [hsto] at hone
          exact hone hout
      · rw [if_neg hcond] at hp
        exact ih tree1 ew1 acc hacc p hp

/-- Claim C7: in every transaction returned by `scan_block`, a discovered
output is marked `is_change = true` exactly when its owning account also
had a matched spend in the same transaction (the spends are processed
before the outputs); an output whose account spent nothing in that
transaction is `is_change = false`. -/
theorem is_change_iff_spent_from_same_tx :
    ∀ (C : ExtCrypto) (block : CompactBlock) (extfvks : List Nat)
      (nullifiers : List (Bytes × Nat)) (tree : CommitmentTree Nat)
      (ew : List (IncrementalWitness Nat))
      (p : WalletTx × List (IncrementalWitness Nat)),
      p ∈ (scan_block C block extfvks nullifiers tree ew).2.2 →
      ∀ out ∈ p.1.shielded_outputs,
        (out.is_change = true ↔
          out.account ∈ p.1.shielded_spends.map (·.account)) := by
  intro C block extfvks nullifiers tree ew p hp out hout
  have hch := scan_block_go_is_change C (extfvks.map C.ivk_of) nullifiers
    block.vtx tree ew [] (by intro q hq; cases hq) p hp out hout
  rw [hch]
  exact ⟨fun h => List.elem_iff.mp h, fun h => List.elem_iff.mpr h⟩

/-- Witness for `is_change_iff_spent_from_same_tx`: a transaction that
spends account 0's note (nullifier `[1]`) and creates an output decryptable
by account 0 — the first discovered output satisfies the change
criterion. -/
theorem is_change_iff_spent_from_same_tx_witness :
    ((((scan_block permissiveCrypto spendAndReceiveBlock [0]
        [([1], 0)] (CommitmentTree.new Nat) []).2.2).headD
        (default, [])).1.shielded_outputs.headD default).is_change = true ↔
      ((((scan_block permissiveCrypto spendAndReceiveBlock [0]
        [([1], 0)] (CommitmentTree.new Nat) []).2.2).headD
        (default, [])).1.shielded_outputs.headD default).account ∈
        (((scan_block permissiveCrypto spendAndReceiveBlock [0]
          [([1], 0)] (CommitmentTree.new Nat) []).2.2).headD
          (default, [])).1.shielded_spends.map (·.account) := by
  exact is_change_iff_spent_from_same_tx permissiveCrypto
    spendAndReceiveBlock [0] [([1], 0)] (CommitmentTree.new Nat) []
    (((scan_block permissiveCrypto spendAndReceiveBlock [0] [([1], 0)]
      (CommitmentTree.new Nat) []).2.2).headD (default, []))
    (by decide)
    ((((scan_block permissiveCrypto spendAndReceiveBlock [0] [([1], 0)]
      (CommitmentTree.new Nat) []).2.2).headD
      (default, [])).1.shielded_outputs.headD default)
    (by decide)

/-! ## Transaction inclusion (C8) -/

theorem filter_append_singleton_pos {α : Type} (f : α → Bool) (l : List α)
    (x : α) (hx : f x = true) :
    (l ++ [x]).filter f = l.filter f ++ [x] := by
  rw [List.filter_append]
  congr 1
  simp [List.filter_cons, hx]

theorem filter_append_singleton_neg {α : Type} (f : α → Bool) (l : List α)
    (x : α) (hx : ¬ f x = true) :
    (l ++ [x]).filter f = l.filter f := by
  rw [List.filter_append]
  have hx' : f x = false := by
    cases hfx : f x
    · rfl
    · exact absurd hfx hx
  simp [List.filter_cons, hx']

theorem scan_block_go_filter (C : ExtCrypto) (ivks : List Nat)
    (nullifiers : List (Bytes × Nat)) :
    ∀ (txs : List CompactTx) (tree : CommitmentTree Nat)
      (ew : List (IncrementalWitness Nat))
      (acc : List (WalletTx × List (IncrementalWitness Nat))),
      scan_block_go C ivks nullifiers txs tree ew
          (acc.filter (fun p => !(p.1.shielded_spends.isEmpty &&
            p.1.shielded_outputs.isEmpty))) =
        ((scan_block_all_go C ivks nullifiers txs tree ew acc).1,
          (scan_block_all_go C ivks nullifiers txs tree ew acc).2.1,
          ((scan_block_all_go C ivks nullifiers txs tree ew acc).2.2).filter
            (fun p => !(p.1.shielded_spends.isEmpty &&
              p.1.shielded_outputs.isEmpty))) := by
  intro txs
  induction txs with
  | nil =>
      intro tree ew acc
      rw [scan_block_go, scan_block_all_go]
  | cons tx rest ih =>
      intro tree ew acc
      rw [scan_block_go, scan_block_all_go]
      rcases hsto : scan_tx_outputs C ivks
          ((scan_tx_spends nullifiers tx.spends.enum).map (·.account))
          tx.outputs.enum tree ew [] [] with ⟨tree1, ew1, nws, outs⟩
      rw [hsto]
      dsimp only
      by_cases hcond :
          (!((scan_tx_spends nullifiers tx.spends.enum).isEmpty &&
            outs.isEmpty)) = true
      · rw [if_pos hcond]
        have hfx : ((fun (p : WalletTx × List (IncrementalWitness Nat)) =>
            !(p.1.shielded_spends.isEmpty && p.1.shielded_outputs.isEmpty))
            ({ txid := tx.hash, index := tx.index,
               num_spends := tx.spends.length,
               num_outputs := tx.outputs.length,
               shielded_spends := scan_tx_spends nullifiers tx.spends.enum,
               shielded_outputs := outs }, nws)) = true := hcond
        rw [← filter_append_singleton_pos
          (fun p => !(p.1.shielded_spends.isEmpty &&
            p.1.shielded_outputs.isEmpty)) acc
          ({ txid := tx.hash, index := tx.index,
             num_spends := tx.spends.length,
             num_outputs := tx.outputs.length,
             shielded_spends := scan_tx_spends nullifiers tx.spends.enum,
             shielded_outputs := outs }, nws) hfx]
        exact ih tree1 ew1 _
      · rw [if_neg hcond]
        have hfx : ¬ ((fun (p : WalletTx × List (IncrementalWitness Nat)) =>
            !(p.1.shielded_spends.isEmpty && p.1.shielded_outputs.isEmpty))
            ({ txid := tx.hash, index := tx.index,
               num_spends := tx.spends.length,
               num_outputs := tx.outputs.length,
               shielded_spends := scan_tx_spends nullifiers tx.spends.enum,
               shielded_outputs := outs }, nws)) = true := hcond
        rw [← filter_append_singleton_neg
          (fun p => !(p.1.shielded_spends.isEmpty &&
            p.1.shielded_outputs.isEmpty)) acc
          ({ txid := tx.hash, index := tx.index,
             num_spends := tx.spends.length,
             num_outputs := tx.outputs.length,
             shielded_spends := scan_tx_spends nullifiers tx.spends.enum,
             shielded_outputs := outs }, nws) hfx]
        exact ih tree1 ew1 _

theorem upsert_tx_txids (h : Int) (idx : Nat) (txid : Bytes)
    (txs : List TxRow) (nid : Nat) (τ : Bytes) :
    (∃ t ∈ (upsert_tx h idx txid txs nid).1, t.txid = τ) ↔
      (∃ t ∈ txs, t.txid = τ) ∨ τ = txid := by
  rw [upsert_tx]
  rcases hf : txs.find? (fun t => t.txid == txid) with _ | existing
  · rw [hf]
    dsimp only
    constructor
    · rintro ⟨t, ht, htt⟩
      rcases List.mem_append.mp ht with hmem | hmem
      · exact Or.inl ⟨t, hmem, htt⟩
      · right
        rw [← htt, List.mem_singleton.mp hmem]
    · rintro (⟨t, ht, htt⟩ | heq)
      · exact ⟨t, List.mem_append.mpr (Or.inl ht), htt⟩
      · refine ⟨(⟨nid, txid, some h, some idx, none⟩ : TxRow),
          List.mem_append.mpr (Or.inr (List.mem_singleton.mpr rfl)), ?_⟩
        exact heq.symm
  · rw [hf]
    dsimp only
    constructor
    · rintro ⟨t, ht, htt⟩
      obtain ⟨t0, ht0, htmap⟩ := List.mem_map.mp ht
      by_cases hb : (t0.txid == txid) = true
      · right
        rw [← htt, ← htmap, if_pos hb]
        have heq2 := eq_of_beq hb
        rw [← heq2]
      · left
        refine ⟨t0, ht0, ?_⟩
        rw [← htt, ← htmap, if_neg hb]
    · rintro (⟨t, ht, htt⟩ | heq)
      · by_cases hb : (t.txid == txid) = true
        · refine ⟨{ t with block := some h, tx_index := some idx },
            List.mem_map.mpr ⟨t, ht, ?_⟩, ?_⟩
          · rw [if_pos hb]
          · rw [← htt]
        · refine ⟨t, List.mem_map.mpr ⟨t, ht, ?_⟩, htt⟩
          rw [if_neg hb]
      · have hfs := List.find?_some hf
        have hmem := List.mem_of_find?_eq_some hf
        refine ⟨{ existing with block := some h, tx_index := some idx },
          List.mem_map.mpr ⟨existing, hmem, ?_⟩, ?_⟩
        · rw [if_pos hfs]
        · have heq2 := eq_of_beq hfs
          rw [heq, ← heq2]

theorem persist_txs_txids (C : ExtCrypto) (h : Int) :
    ∀ (txs : List (WalletTx × List (IncrementalWitness Nat))) (db : DataDB)
      (wits : List WitnessRow) (nfs : List (Bytes × Nat)) (τ : Bytes),
      (∃ t ∈ (persist_txs C h txs db wits nfs).1.txs, t.txid = τ) ↔
        (∃ t ∈ db.txs, t.txid = τ) ∨ ∃ p ∈ txs, p.1.txid = τ := by
  intro txs
  induction txs with
  | nil =>
      intro db wits nfs τ
      rw [persist_txs]
      simp
  | cons q rest ih =>
      intro db wits nfs τ
      rcases q with ⟨tx, nws⟩
      rw [persist_txs]
      rcases hup : upsert_tx h tx.index tx.txid db.txs db.next_tx_id with
        ⟨txs1, tx_row, ntid⟩
      dsimp only
      rcases hpo : persist_outputs C tx_row (tx.shielded_outputs.zip nws)
          (mark_spent tx_row tx.shielded_spends db.notes) db.next_note_id
          wits (remove_spent_nullifiers tx.shielded_spends nfs) with
        ⟨notes2, nnid, wits1, nfs2⟩
      dsimp only
      rw [ih]
      have hu := upsert_tx_txids h tx.index tx.txid db.txs db.next_tx_id τ
      rw [hup] at hu
      dsimp only at hu
      rw [hu]
      constructor
      · rintro ((hdb | heq) | hrest)
        · exact Or.inl hdb
        · exact Or.inr ⟨(tx, nws), List.mem_cons_self _ _, heq.symm⟩
        · obtain ⟨p, hp, hpt⟩ := hrest
          exact Or.inr ⟨p, List.mem_cons_of_mem _ hp, hpt⟩
      · rintro (hdb | ⟨p, hp, hpt⟩)
        · exact Or.inl (Or.inl hdb)
        · rcases List.mem_cons.mp hp with heq | hmem
          · rw [heq] at hpt
            exact Or.inl (Or.inr hpt.symm)
          · exact Or.inr ⟨p, hmem, hpt⟩

/-- Claim C8: `scan_block` returns exactly the transactions the unfiltered
per-transaction scan produces that have at least one matched spend or
discovered output (it equals a filter over the keep-everything refinement
`scan_block_all`, with identical tree and witness evolution); consequently
every returned transaction touches a tracked account; and the persistence
loop's `transactions` table gains exactly the returned transactions'
txids. -/
theorem tx_inclusion_iff_tracked_touch :
    (∀ (C : ExtCrypto) (block : CompactBlock) (extfvks : List Nat)
        (nullifiers : List (Bytes × Nat)) (tree : CommitmentTree Nat)
        (ew : List (IncrementalWitness Nat)),
        scan_block C block extfvks nullifiers tree ew =
          ((scan_block_all C block extfvks nullifiers tree ew).1,
            (scan_block_all C block extfvks nullifiers tree ew).2.1,
            ((scan_block_all C block extfvks nullifiers tree ew).2.2).filter
              (fun p => !(p.1.shielded_spends.isEmpty &&
                p.1.shielded_outputs.isEmpty)))) ∧
    (∀ (C : ExtCrypto) (block : CompactBlock) (extfvks : List Nat)
        (nullifiers : List (Bytes × Nat)) (tree : CommitmentTree Nat)
        (ew : List (IncrementalWitness Nat))
        (p : WalletTx × List (IncrementalWitness Nat)),
        p ∈ (scan_block C block extfvks nullifiers tree ew).2.2 →
        ¬(p.1.shielded_spends = [] ∧ p.1.shielded_outputs = [])) ∧
    (∀ (C : ExtCrypto) (h : Int)
        (txs : List (WalletTx × List (IncrementalWitness Nat)))
        (db : DataDB) (wits : List WitnessRow) (nfs : List (Bytes × Nat))
        (τ : Bytes),
        (∃ t ∈ (persist_txs C h txs db wits nfs).1.txs, t.txid = τ) ↔
          (∃ t ∈ db.txs, t.txid = τ) ∨ ∃ p ∈ txs, p.1.txid = τ) := by
  have hfilter : ∀ (C : ExtCrypto) (block : CompactBlock)
      (extfvks : List Nat) (nullifiers : List (Bytes × Nat))
      (tree : CommitmentTree Nat) (ew : List (IncrementalWitness Nat)),
      scan_block C block extfvks nullifiers tree ew =
        ((scan_block_all C block extfvks nullifiers tree ew).1,
          (scan_block_all C block extfvks nullifiers tree ew).2.1,
          ((scan_block_all C block extfvks nullifiers tree ew).2.2).filter
            (fun p => !(p.1.shielded_spends.isEmpty &&
              p.1.shielded_outputs.isEmpty))) := by
    intro C block extfvks nullifiers tree ew
    have hgo := scan_block_go_filter C (extfvks.map C.ivk_of) nullifiers
      block.vtx tree ew []
    rw [scan_block, scan_block_all]
    simpa using hgo
  refine ⟨hfilter, ?_, ?_⟩
  · intro C block extfvks nullifiers tree ew p hp
    rw [hfilter] at hp
    have hmem := List.mem_filter.mp hp
    rintro ⟨hs, ho⟩
    have := hmem.2
    rw [hs, ho] at this
    simp at this
  · intro C h txs db wits nfs τ
    exact persist_txs_txids C h txs db wits nfs τ

/-- Witness for `tx_inclusion_iff_tracked_touch`: the transactions returned
for the double-spend block both carry a matched spend, so neither has empty
spend and output lists. -/
theorem tx_inclusion_iff_tracked_touch_witness :
    ¬((((scan_block rigidCrypto doubleSpendBlock [] [([1], 0)]
        (CommitmentTree.new Nat) []).2.2).headD
        (default, [])).1.shielded_spends = [] ∧
      (((scan_block rigidCrypto doubleSpendBlock [] [([1], 0)]
        (CommitmentTree.new Nat) []).2.2).headD
        (default, [])).1.shielded_outputs = []) := by
  exact tx_inclusion_iff_tracked_touch.2.1 rigidCrypto doubleSpendBlock []
    [([1], 0)] (CommitmentTree.new Nat) []
    ((((scan_block rigidCrypto doubleSpendBlock [] [([1], 0)]
      (CommitmentTree.new Nat) []).2.2).headD (default, []))) (by decide)

/-! ## Depth domain separation of the tree hash (C9)

The two Merkle-node hashes are evaluated in stages: the generic unfolding
lemmas expose one generator segment of `pedersenFold` at a time, and each
segment scalar and scalar multiple is established by a separate kernel
computation before the per-depth hash values are assembled. -/

/-- Unfolding `pedersenFold` over a non-empty generator list and a bit list
with an explicit head: one segment is folded and its scalar multiplies the
leading generator. -/
theorem pedersenFold_cons (g : JPoint) (gens : List JPoint) (b : Bool)
    (bs : List Bool) (res : JPoint) :
    pedersenFold (g :: gens) (b :: bs) res =
      pedersenFold gens (pedersenSegment 63 1 0 (b :: bs)).2
        (padd res (pmul g (pedersenSegment 63 1 0 (b :: bs)).1)) := rfl

/-- Unfolding `pedersenFold` for any non-empty bit list. -/
theorem pedersenFold_cons_ne (g : JPoint) (gens : List JPoint)
    (bits : List Bool) (res : JPoint) (h : bits ≠ []) :
    pedersenFold (g :: gens) bits res =
      pedersenFold gens (pedersenSegment 63 1 0 bits).2
        (padd res (pmul g (pedersenSegment 63 1 0 bits).1)) := by
  cases bits with
  | nil => exact absurd rfl h
  | cons b bs => exact pedersenFold_cons g gens b bs res

/-- Exhausted bits end the generator loop. -/
theorem pedersenFold_nil_bits (gens : List JPoint) (res : JPoint) :
    pedersenFold gens [] res = res := by
  cases gens <;> rfl

/-- Personalization bits of the depth-1 Merkle level. -/
theorem pers_bits_depth_one :
    Personalization.get_bits (Personalization.MerkleTree 1) =
      [true, false, false, false, false, false] := by decide

/-- Personalization bits of the depth-2 Merkle level. -/
theorem pers_bits_depth_two :
    Personalization.get_bits (Personalization.MerkleTree 2) =
      [false, true, false, false, false, false] := by decide

/-- The child bits extend past segment one. -/
theorem leBits_rest_head_ne : (leBits 255 1 ++ leBits 255 1).drop 183 ≠ [] := by
  decide

/-- The child bits extend past segment two. -/
theorem leBits_rest_mid_ne : (leBits 255 1 ++ leBits 255 1).drop 372 ≠ [] := by
  decide

set_option maxHeartbeats 4000000 in
/-- The three Pedersen segment generators, evaluated. -/
theorem pedersen_generators_eval :
    pedersen_hash_generators =
      [⟨43667645339295161615992816302150537877654717100928646181688003574919487081527,
        25352782732401081433430969446167164332687225082696999706403336963384185073719,
        48304136434958719885594540690293824320220062393719277575140135767111300688568,
        38245405509960759677034715291147048552713074912791990171396232501149620878734⟩,
       ⟨49203922835264418565980377926545238795847963099005190757009189626227107135592,
        30597925832477101512825654246898802983976459939311171632305646663846970373790,
        5590474245339095100463171670985139407064970076535072448461636664833807953449,
        43711056066478520330291712269835449893114161200700753662446766975550605296603⟩,
       ⟨6359528736030226833779281090965011037056358946560016343252900429407980347606,
        2181005462975144150988225475658725012799170878202338214045646435581913458667,
        26755875871639456625712233656853735966193256590379177727869936792804227538245,
        12226459503112057605650090725406102083084715773595238025210378659769225321539⟩] := by decide

set_option maxHeartbeats 2000000 in
/-- Segment-0 scalar of the depth-1 node hash. -/
theorem seg_head_depth_one_fst :
    (pedersenSegment 63 1 0 (true :: false :: false :: false :: false :: false ::
      (leBits 255 1 ++ leBits 255 1))).1 =
      482467038488817480931545770869532949388624936106835683497739933366304707090 := by decide

set_option maxHeartbeats 2000000 in
/-- Remaining bits after the segment of `seg_head_depth_one_fst`. -/
theorem seg_head_depth_one_snd :
    (pedersenSegment 63 1 0 (true :: false :: false :: false :: false :: false ::
      (leBits 255 1 ++ leBits 255 1))).2 = (leBits 255 1 ++ leBits 255 1).drop 183 := by decide

set_option maxHeartbeats 2000000 in
/-- Segment-0 scalar of the depth-2 node hash. -/
theorem seg_head_depth_two_fst :
    (pedersenSegment 63 1 0 (false :: true :: false :: false :: false :: false ::
      (leBits 255 1 ++ leBits 255 1))).1 =
      482467038488817480931545770869532949388624936106835683497739933366304707091 := by decide

set_option maxHeartbeats 2000000 in
/-- Remaining bits after the segment of `seg_head_depth_two_fst`. -/
theorem seg_head_depth_two_snd :
    (pedersenSegment 63 1 0 (false :: true :: false :: false :: false :: false ::
      (leBits 255 1 ++ leBits 255 1))).2 = (leBits 255 1 ++ leBits 255 1).drop 183 := by decide

set_option maxHeartbeats 2000000 in
/-- Segment-1 scalar, shared by both depths. -/
theorem seg_mid_shared_fst :
    (pedersenSegment 63 1 0 ((leBits 255 1 ++ leBits 255 1).drop 183)).1 =
      482467038488817480931545770869532949388624936186063846012004270959848657169 := by decide

set_option maxHeartbeats 2000000 in
/-- Remaining bits after the segment of `seg_mid_shared_fst`. -/
theorem seg_mid_shared_snd :
    (pedersenSegment 63 1 0 ((leBits 255 1 ++ leBits 255 1).drop 183)).2 = (leBits 255 1 ++ leBits 255 1).drop 372 := by decide

set_option maxHeartbeats 2000000 in
/-- Segment-2 scalar, shared by both depths. -/
theorem seg_last_shared_fst :
    (pedersenSegment 63 1 0 ((leBits 255 1 ++ leBits 255 1).drop 372)).1 =
      1634661910256948115582236828960329795859988396995842321 := by decide

set_option maxHeartbeats 2000000 in
/-- Remaining bits after the segment of `seg_last_shared_fst`. -/
theorem seg_last_shared_snd :
    (pedersenSegment 63 1 0 ((leBits 255 1 ++ leBits 255 1).drop 372)).2 = [] := by decide

set_option maxHeartbeats 4000000 in
/-- Scalar multiple of generator 0 by the depth-1 segment-0 scalar. -/
theorem pmul_gen0_depth_one :
    pmul ⟨43667645339295161615992816302150537877654717100928646181688003574919487081527,
          25352782732401081433430969446167164332687225082696999706403336963384185073719,
          48304136434958719885594540690293824320220062393719277575140135767111300688568,
          38245405509960759677034715291147048552713074912791990171396232501149620878734⟩
      482467038488817480931545770869532949388624936106835683497739933366304707090 =
    ⟨13086459968506904041588794199072045245952383077603385844342625078667286076948,
      18724547571763382947534113686260528327134287722886968553249310984460802187581,
      48651902857423964010238363909514428540945837149243172259669206869639483909320,
      47544655288681574992072679058243807040494362453003027933581473875873185667510⟩ := by decide

set_option maxHeartbeats 4000000 in
/-- Scalar multiple of generator 0 by the depth-2 segment-0 scalar. -/
theorem pmul_gen0_depth_two :
    pmul ⟨43667645339295161615992816302150537877654717100928646181688003574919487081527,
          25352782732401081433430969446167164332687225082696999706403336963384185073719,
          48304136434958719885594540690293824320220062393719277575140135767111300688568,
          38245405509960759677034715291147048552713074912791990171396232501149620878734⟩
      482467038488817480931545770869532949388624936106835683497739933366304707091 =
    ⟨23174392409744738828876010461436188914774286801076250649025323749376817565557,
      50902238081442874861502499206870425326684149548650157446875366108015600910983,
      15567018964929922018322085344240631968923748690382578077943844540786754570342,
      647620479097638972071444211820789663397387310368701267755265727977460426114⟩ := by decide

set_option maxHeartbeats 4000000 in
/-- Scalar multiple of generator 1 by the shared segment-1 scalar. -/
theorem pmul_gen1_shared :
    pmul ⟨49203922835264418565980377926545238795847963099005190757009189626227107135592,
          30597925832477101512825654246898802983976459939311171632305646663846970373790,
          5590474245339095100463171670985139407064970076535072448461636664833807953449,
          43711056066478520330291712269835449893114161200700753662446766975550605296603⟩
      482467038488817480931545770869532949388624936186063846012004270959848657169 =
    ⟨33545871149142364062096220493446131246754863461057073879938638136056904546126,
      47420829400618026147304328747994650163310950745139133314316071519703133186930,
      13670069955228394587373043674077331061340678407347706223522839380136998585142,
      10794927778482174085108497048562228181035792433941241319514054479511461069763⟩ := by decide

set_option maxHeartbeats 4000000 in
/-- Scalar multiple of generator 2 by the shared segment-2 scalar. -/
theorem pmul_gen2_shared :
    pmul ⟨6359528736030226833779281090965011037056358946560016343252900429407980347606,
          2181005462975144150988225475658725012799170878202338214045646435581913458667,
          26755875871639456625712233656853735966193256590379177727869936792804227538245,
          12226459503112057605650090725406102083084715773595238025210378659769225321539⟩
      1634661910256948115582236828960329795859988396995842321 =
    ⟨2403992357476962917897976606308961586989453592774532714383420674991176801860,
      27227298027834930416805187529687103203627618136430018721117556901558863702509,
      2955495153708040374176015439016078708301992819333937147194647856915693603415,
      35695579658203038588892165422178727801727063524383422267095997422521794216139⟩ := by decide

/-- Accumulating the depth-1 segment-0 multiple onto the identity. -/
theorem padd_zero_depth_one :
    padd JPoint.zero
      ⟨13086459968506904041588794199072045245952383077603385844342625078667286076948,
      18724547571763382947534113686260528327134287722886968553249310984460802187581,
      48651902857423964010238363909514428540945837149243172259669206869639483909320,
      47544655288681574992072679058243807040494362453003027933581473875873185667510⟩ =
    ⟨37605992094782647683962618417315661970454265765130397082719696429076311709731,
      43401119198273996551259253578913256771303086888054067232857345803104072840573,
      41022226350081959242054072319013274323069331338127543635618081152860381402736,
      50972014468173905623417137332190210516406623497359306214664882317239555455998⟩ := by decide

/-- Accumulating the depth-2 segment-0 multiple onto the identity. -/
theorem padd_zero_depth_two :
    padd JPoint.zero
      ⟨23174392409744738828876010461436188914774286801076250649025323749376817565557,
      50902238081442874861502499206870425326684149548650157446875366108015600910983,
      15567018964929922018322085344240631968923748690382578077943844540786754570342,
      647620479097638972071444211820789663397387310368701267755265727977460426114⟩ =
    ⟨45006746664508382167802412590222060709273958957733241514571795855820920623155,
      13090188516809403244093750747850201182856617149636960811715109912841088442435,
      39205584270183737342928352616766493445797603895743585194500433962264849621483,
      25091358507286482918373819734756797971072609640852624734095977278806945017324⟩ := by decide

/-- Accumulating the segment-1 multiple, depth 1. -/
theorem padd_mid_depth_one :
    padd ⟨37605992094782647683962618417315661970454265765130397082719696429076311709731,
          43401119198273996551259253578913256771303086888054067232857345803104072840573,
          41022226350081959242054072319013274323069331338127543635618081152860381402736,
          50972014468173905623417137332190210516406623497359306214664882317239555455998⟩
      ⟨33545871149142364062096220493446131246754863461057073879938638136056904546126,
      47420829400618026147304328747994650163310950745139133314316071519703133186930,
      13670069955228394587373043674077331061340678407347706223522839380136998585142,
      10794927778482174085108497048562228181035792433941241319514054479511461069763⟩ =
    ⟨42449736210689771919933339930403687479247137640924600649397631958767293713699,
      10266301462216793941493566534959461555437001409593520811969848884155018617982,
      43698892933322663132182168843466501934887520050130926644003413271913387564618,
      24964154089566576760990342928882419379472922981096592377930681278374824691521⟩ := by decide

/-- Accumulating the segment-1 multiple, depth 2. -/
theorem padd_mid_depth_two :
    padd ⟨45006746664508382167802412590222060709273958957733241514571795855820920623155,
          13090188516809403244093750747850201182856617149636960811715109912841088442435,
          39205584270183737342928352616766493445797603895743585194500433962264849621483,
          25091358507286482918373819734756797971072609640852624734095977278806945017324⟩
      ⟨33545871149142364062096220493446131246754863461057073879938638136056904546126,
      47420829400618026147304328747994650163310950745139133314316071519703133186930,
      13670069955228394587373043674077331061340678407347706223522839380136998585142,
      10794927778482174085108497048562228181035792433941241319514054479511461069763⟩ =
    ⟨14951471749203453079924060927131686348774709441313726478603442387158862427871,
      34049772332403968666356772488536630655611829483182615261982874281654593556923,
      24537241279067399949037072762611822019851706626328458944548902449407100417605,
      4892857323206808310626455858392831769450268961080839336813965047777270434337⟩ := by decide

/-- Accumulating the segment-2 multiple, depth 1. -/
theorem padd_last_depth_one :
    padd ⟨42449736210689771919933339930403687479247137640924600649397631958767293713699,
          10266301462216793941493566534959461555437001409593520811969848884155018617982,
          43698892933322663132182168843466501934887520050130926644003413271913387564618,
          24964154089566576760990342928882419379472922981096592377930681278374824691521⟩
      ⟨2403992357476962917897976606308961586989453592774532714383420674991176801860,
      27227298027834930416805187529687103203627618136430018721117556901558863702509,
      2955495153708040374176015439016078708301992819333937147194647856915693603415,
      35695579658203038588892165422178727801727063524383422267095997422521794216139⟩ =
    ⟨25676732949810663147924445110907037333808293693622857714641246157340127118205,
      43207356100341043469064660752535414002552807888208789555013998006156547988818,
      32786809123660303446093376586919787215308864887538751328921434780791419866485,
      22196340623291833321151124686264973606200036210580510282441974099501964114923⟩ := by decide

/-- Accumulating the segment-2 multiple, depth 2. -/
theorem padd_last_depth_two :
    padd ⟨14951471749203453079924060927131686348774709441313726478603442387158862427871,
          34049772332403968666356772488536630655611829483182615261982874281654593556923,
          24537241279067399949037072762611822019851706626328458944548902449407100417605,
          4892857323206808310626455858392831769450268961080839336813965047777270434337⟩
      ⟨2403992357476962917897976606308961586989453592774532714383420674991176801860,
      27227298027834930416805187529687103203627618136430018721117556901558863702509,
      2955495153708040374176015439016078708301992819333937147194647856915693603415,
      35695579658203038588892165422178727801727063524383422267095997422521794216139⟩ =
    ⟨16027023480345559221966315463022864247940152726233842845335679301976287246297,
      48001470283484099204858447526800827733376612674129113172290963769160240525771,
      33387201584254507561224522509856805829339821966494329121585241612954200671796,
      18345930417069824060875454110997872220660062669865725584672969952613030825488⟩ := by decide

set_option maxHeartbeats 2000000 in
/-- Value of the depth-1 combine of two empty leaves, assembled from the staged segment computations. -/
theorem merkle_hash_depth_one_eval :
    merkle_hash 1 uncommitted uncommitted =
      27327169535774082506997036079109349041043521757937909784636767939301735076739 := by
  show (into_xy (pedersenFold pedersen_hash_generators
      (Personalization.get_bits
          (Personalization.MerkleTree 1) ++
        (leBits 255 1 ++ leBits 255 1)) JPoint.zero)).1 = _
  rw [pedersen_generators_eval, pers_bits_depth_one]
  simp only [List.cons_append, List.nil_append]
  rw [pedersenFold_cons]
  rw [seg_head_depth_one_fst, seg_head_depth_one_snd]
  rw [pmul_gen0_depth_one, padd_zero_depth_one]
  rw [pedersenFold_cons_ne _ _ _ _ leBits_rest_head_ne]
  rw [seg_mid_shared_fst, seg_mid_shared_snd]
  rw [pmul_gen1_shared, padd_mid_depth_one]
  rw [pedersenFold_cons_ne _ _ _ _ leBits_rest_mid_ne]
  rw [seg_last_shared_fst, seg_last_shared_snd]
  rw [pmul_gen2_shared, padd_last_depth_one]
  rw [pedersenFold_nil_bits]
  decide

set_option maxHeartbeats 2000000 in
/-- Value of the depth-2 combine of two empty leaves, assembled from the staged segment computations. -/
theorem merkle_hash_depth_two_eval :
    merkle_hash 2 uncommitted uncommitted =
      25194134840851063328542521117791491660611536464220466010475691803073077955560 := by
  show (into_xy (pedersenFold pedersen_hash_generators
      (Personalization.get_bits
          (Personalization.MerkleTree 2) ++
        (leBits 255 1 ++ leBits 255 1)) JPoint.zero)).1 = _
  rw [pedersen_generators_eval, pers_bits_depth_two]
  simp only [List.cons_append, List.nil_append]
  rw [pedersenFold_cons]
  rw [seg_head_depth_two_fst, seg_head_depth_two_snd]
  rw [pmul_gen0_depth_two, padd_zero_depth_two]
  rw [pedersenFold_cons_ne _ _ _ _ leBits_rest_head_ne]
  rw [seg_mid_shared_fst, seg_mid_shared_snd]
  rw [pmul_gen1_shared, padd_mid_depth_two]
  rw [pedersenFold_cons_ne _ _ _ _ leBits_rest_mid_ne]
  rw [seg_last_shared_fst, seg_last_shared_snd]
  rw [pmul_gen2_shared, padd_last_depth_two]
  rw [pedersenFold_nil_bits]
  decide

/-- Claim C9: `merkle_hash` is a pure function of `(depth, lhs, rhs)` by
construction of the embedding, and it is depth-sensitive: combining the
well-known empty leaf (`Note::uncommitted() = 1`) with itself at depths 1
and 2 yields different roots, because the depth is encoded in the Pedersen
hash's six domain-separation (personalization) bits, which differ between
the two depths. -/
theorem merkle_hash_depth_domain_separation :
    merkle_hash 1 uncommitted uncommitted ≠
        merkle_hash 2 uncommitted uncommitted ∧
      Personalization.get_bits (.MerkleTree 1) ≠
        Personalization.get_bits (.MerkleTree 2) := by
  refine ⟨?_, by decide⟩
  rw [merkle_hash_depth_one_eval, merkle_hash_depth_two_eval]
  decide
